import Mathlib

/-!
# dx solo: comparison of recorded benchmark runs

A shallow embedding of `dx/solo_compare.go` and `dx/cmd/solo_query.go` of
`pilosa/tools`, and of the two functions of the Go package `time` that
`TimeDuration` relies on.

* `Dx.Compare`: `queryResultsAreEqual`, `compareQueryBenchmarks`,
  `compareQueries`, `compareIngest` and `ExecuteCompare`.
* `Dx.SoloQuery`: the record and replay phases of `ExecuteSoloQueries` as
  functions on an explicit world (data directory and trace of actions), and
  `TimeDuration` with its JSON methods.
* `Dx.GoTime`: `Duration.String` and `ParseDuration`.
* `Dx.Imagine`: the generated text methods of `valueOrder` of
  `imagine/pkg/enums_valueorder.go`.

Conventions:

* Go `int64` / `time.Duration` values are integers; additions and subtractions
  that can leave the 64-bit range are wrapped with `wrap64`.
* A nil-able pointer is an `Option`; a nil dereference (a Go panic) is `none`
  in the result of the function that performs it, and `Outcome.panicked` in
  the outcome of a run.
* A `float64(a) / float64(b)` of two integers is kept as the pair of its
  operands (`FloatQuot`), with the exact quotient available as a rational.
* Declarations of package `dx` that the two files use without defining them
  are fields of `Compare.CompareEnv` and of `SoloQuery.Env`, next to the
  outcomes of the external calls.
-/

namespace Dx

/-- Two's-complement wrap of an integer into the signed 64-bit range. -/
def wrap64 (x : Int) : Int := (x + 2 ^ 63) % 2 ^ 64 - 2 ^ 63

/-- An integer lies in the signed 64-bit range. -/
def inInt64 (x : Int) : Prop := -2 ^ 63 ≤ x ∧ x < 2 ^ 63

/-- The Go expression `float64(num) / float64(den)` for two `int64` operands,
kept as the operand pair. -/
structure FloatQuot where
  num : Int
  den : Int
deriving DecidableEq, Repr

/-- The exact quotient of the operands; `none` when the divisor is zero (Go
yields NaN or an infinity there). When both operands are below `2 ^ 53` in
magnitude the conversions are exact and the Go result is this value rounded to
the nearest `float64`. -/
def FloatQuot.value (q : FloatQuot) : Option ℚ :=
  if q.den = 0 then none else some ((q.num : ℚ) / (q.den : ℚ))

/-- The end of a run: a Go panic, or the returned error (`none` for nil). -/
inductive Outcome where
  | panicked
  | returned (err : Option String)
deriving DecidableEq, Repr

namespace Compare

/-- The structured result of a query as `solo_compare.go` sees it: the
`Columns` slice, whose length is taken, and everything else that
`reflect.DeepEqual` inspects in the pointed-to value (`Rest`: the other
fields, and whether an empty `Columns` is nil). -/
structure RowResult (A : Type) where
  Columns : List Nat
  Rest : A
deriving DecidableEq, Repr

/-- The fields of `Query` read by `solo_compare.go`: `Result` and
`ResultCount` are pointers that may be nil, `Time` is `Time.Duration`. -/
structure Query (A : Type) where
  Result : Option (RowResult A)
  ResultCount : Option Int
  Time : Int

/-- The fields of `QueryBenchmark` read by `solo_compare.go`. `Queries` is
indexed with the two-valued form `q, found := Queries[i]`: a map from position
to a `*Query`. The outer `none` is a missing key (`found` is false), `some
none` a key that holds a nil pointer. -/
structure QueryBenchmark (A : Type) where
  NumQueries : Int
  Queries : Int → Option (Option (Query A))

/-- The comparison output `Benchmark`. -/
structure Benchmark where
  Size : Int
  PTime : Int
  CTime : Int
  Accuracy : FloatQuot
  TimeDelta : FloatQuot
deriving DecidableEq, Repr

/-- The fields of `SoloBenchmark` read by `solo_compare.go` (`Type`, here
`Type_`, `Time`, `NumBenchmarks` behind a pointer, `Benchmarks`, a slice of
`*QueryBenchmark` whose entries may be nil) together with the `Instance` tag
that `solo_query.go` declares for the persisted record. -/
structure SoloBenchmark (A : Type) where
  Type_ : String
  Instance : String
  Time : Int
  NumBenchmarks : Option Int
  Benchmarks : List (Option (QueryBenchmark A))

variable {A : Type} [DecidableEq A]

/-- Function `queryResultsAreEqual` of `solo_compare.go`. `reflect.DeepEqual` on the two
non-nil `Result` pointers is equality of the pointed-to values. -/
def queryResultsAreEqual (query1 query2 : Query A) : Option Bool :=
  match query1.Result with
  | none =>
    match query2.Result with
    | none =>
      match query1.ResultCount, query2.ResultCount with
      | some c1, some c2 => some (decide (c1 = c2))
      | _, _ => none
    | some r2 =>
      match query1.ResultCount with
      | some c1 => some (decide (c1 = (r2.Columns.length : Int)))
      | none => none
  | some r1 =>
    match query2.Result with
    | none =>
      match query2.ResultCount with
      | some c2 => some (decide ((r1.Columns.length : Int) = c2))
      | none => none
    | some r2 => some (decide (r1 = r2))

/-- The test `query.Result == nil && query.ResultCount == nil`. -/
def lacksResult (q : Query A) : Bool :=
  q.Result.isNone && q.ResultCount.isNone

/-- The local variables of the loop of `compareQueryBenchmarks`. -/
structure LoopState where
  time1 : Int
  time2 : Int
  numCorrect : Int
  validQueries : Int
deriving DecidableEq, Repr

/-- One iteration of the loop of `compareQueryBenchmarks` at position `i`;
`querybench1` is not nil. When `found` is false the test short-circuits
before `query1.Result`; a key holding a nil `*Query` panics there, and so does
`querybench2.Queries[i]` on a nil `querybench2`. -/
def loopBody (querybench1 : QueryBenchmark A) (querybench2 : Option (QueryBenchmark A))
    (st : LoopState) (i : Int) : Option LoopState :=
  match querybench1.Queries i with
  | none => some { st with validQueries := st.validQueries - 1 }
  | some none => none
  | some (some query1) =>
    if lacksResult query1 then some { st with validQueries := st.validQueries - 1 }
    else
      match querybench2 with
      | none => none
      | some querybench2 =>
        match querybench2.Queries i with
        | none => some st
        | some none => none
        | some (some query2) =>
          if lacksResult query2 then some st
          else
            match queryResultsAreEqual query1 query2 with
            | none => none
            | some eq =>
              some { st with
                numCorrect := if eq then st.numCorrect + 1 else st.numCorrect
                time1 := wrap64 (st.time1 + query1.Time)
                time2 := wrap64 (st.time2 + query2.Time) }

/-- The loop `for i := 0; i < NumQueries; i++` run over the given positions. -/
def runLoop (querybench1 : QueryBenchmark A) (querybench2 : Option (QueryBenchmark A)) :
    List Int → LoopState → Option LoopState
  | [], st => some st
  | i :: is, st =>
    match loopBody querybench1 querybench2 st i with
    | none => none
    | some st' => runLoop querybench1 querybench2 is st'

/-- The positions `0, 1, ..., n - 1` visited by a Go loop `for i := 0; i < n; i++`. -/
def positions (n : Int) : List Int :=
  List.map Int.ofNat (List.range n.toNat)

/-- Function `compareQueryBenchmarks` of `solo_compare.go`, on its two
pointers; `none` is a panic (the returned error is always nil). A nil
`querybench1` panics at `querybench1.NumQueries`. -/
def compareQueryBenchmarks (querybench1 querybench2 : Option (QueryBenchmark A)) :
    Option Benchmark :=
  match querybench1 with
  | none => none
  | some querybench1 =>
    match runLoop querybench1 querybench2 (positions querybench1.NumQueries)
        { time1 := 0, time2 := 0, numCorrect := 0, validQueries := querybench1.NumQueries } with
    | none => none
    | some st =>
      some { Size := st.validQueries
             PTime := st.time1
             CTime := st.time2
             Accuracy := ⟨st.numCorrect, st.validQueries⟩
             TimeDelta := ⟨wrap64 (st.time2 - st.time1), st.time1⟩ }

/-- Function `compareIngest` of `solo_compare.go`: the `Benchmark` handed to
`printIngestResults`. The fields the literal leaves out keep their zero value
(`Size` 0, `Accuracy` 0.0, written `0 / 1`). -/
def compareIngest (bench1 bench2 : SoloBenchmark A) : Benchmark :=
  { Size := 0
    CTime := bench1.Time
    PTime := bench2.Time
    Accuracy := ⟨0, 1⟩
    TimeDelta := ⟨wrap64 (bench1.Time - bench2.Time), bench1.Time⟩ }

/-- Function `compareQueries` of `solo_compare.go`: the list of benchmarks
handed to `printQueryResults`; `none` when a nil `NumBenchmarks` is
dereferenced, `Benchmarks[i]` is out of range or `compareQueryBenchmarks`
panics. -/
def compareQueries (bench1 bench2 : SoloBenchmark A) : Option (List Benchmark) :=
  match bench1.NumBenchmarks, bench2.NumBenchmarks with
  | some n1, some n2 =>
    let totalBenches := if n1 ≤ n2 then n1 else n2
    (positions totalBenches).mapM (fun i =>
      match bench1.Benchmarks[i.toNat]?, bench2.Benchmarks[i.toNat]? with
      | some qb1, some qb2 => compareQueryBenchmarks qb1 qb2
      | _, _ => none)
  | _, _ => none

/-! ### The aggregates in the words of the specification -/

/-- The benchmark has, at position `i`, a query with a result or a count. -/
def producedAt (b : QueryBenchmark A) (i : Int) : Bool :=
  match b.Queries i with
  | some (some q) => q.Result.isSome || q.ResultCount.isSome
  | _ => false

/-- The key `i` of the map holds a nil pointer. -/
def nilAt (b : QueryBenchmark A) (i : Int) : Bool :=
  match b.Queries i with
  | some none => true
  | _ => false

/-- The iteration at position `i` dereferences a nil `*Query`: that of the
first run, or that of the second run where the first run has a result. -/
def panicsAt (b1 b2 : QueryBenchmark A) (i : Int) : Bool :=
  nilAt b1 i || (producedAt b1 i && nilAt b2 i)

/-- The comparison rule holds for the two queries at position `i`. -/
def equalAt (b1 b2 : QueryBenchmark A) (i : Int) : Bool :=
  match b1.Queries i, b2.Queries i with
  | some (some q1), some (some q2) => queryResultsAreEqual q1 q2 == some true
  | _, _ => false

/-- The duration recorded at position `i` (0 where there is no query). -/
def timeAt (b : QueryBenchmark A) (i : Int) : Int :=
  match b.Queries i with
  | some (some q) => q.Time
  | _ => 0

/-- The number of positions in `[0, NumQueries)` where run 1 produced a result. -/
def specValidQueries (b1 : QueryBenchmark A) : Nat :=
  ((positions b1.NumQueries).filter (fun i => producedAt b1 i)).length

/-- The number of positions in `[0, NumQueries)` where both runs produced a
result and the comparison rule holds. -/
def specNumCorrect (b1 b2 : QueryBenchmark A) : Nat :=
  ((positions b1.NumQueries).filter
    (fun i => producedAt b1 i && producedAt b2 i && equalAt b1 b2 i)).length

/-- The positions in `[0, NumQueries)` where both runs produced a result. -/
def bothProduced (b1 b2 : QueryBenchmark A) : List Int :=
  (positions b1.NumQueries).filter (fun i => producedAt b1 i && producedAt b2 i)

/-- The sum of the per-query durations of the first run over `bothProduced`. -/
def specFirstTime (b1 b2 : QueryBenchmark A) : Int :=
  ((bothProduced b1 b2).map (timeAt b1)).sum

/-- The sum of the per-query durations of the second run over `bothProduced`. -/
def specSecondTime (b1 b2 : QueryBenchmark A) : Int :=
  ((bothProduced b1 b2).map (timeAt b2)).sum

/-- The cardinality of the result a query carries: the length of the column
list of a column set, else the value of the count. -/
def cardinality (q : Query A) : Option Int :=
  match q.Result with
  | some r => some (r.Columns.length : Int)
  | none => q.ResultCount

/-- The query carries only a scalar count. -/
def countOnly (q : Query A) : Prop := q.Result = none ∧ q.ResultCount ≠ none

/-- A recorded query whose column set lists the columns 1, 2. -/
def columnsAscending : Query Unit := ⟨some ⟨[1, 2], ()⟩, none, 0⟩

/-- A replayed query whose column set lists the same columns as 2, 1. -/
def columnsDescending : Query Unit := ⟨some ⟨[2, 1], ()⟩, none, 0⟩

/-- A replayed query carrying only the count 5. -/
def countFive : Query Unit := ⟨none, some 5, 0⟩

/-- A recorded query with the column set 10, 11, 12, 13, 14. -/
def fiveColumns : Query Unit := ⟨some ⟨[10, 11, 12, 13, 14], ()⟩, none, 0⟩

/-- A benchmark whose `NumQueries` is negative and that holds no query. -/
def negativeRun : QueryBenchmark Unit := ⟨-1, fun _ => none⟩

/-- A first run of four positions: a count, a column set, a query without
result, and a missing query. -/
def sampleFirst : QueryBenchmark Unit :=
  ⟨4, fun i =>
    if i = 0 then some (some ⟨none, some 5, 10⟩)
    else if i = 1 then some (some ⟨some ⟨[1, 2], ()⟩, none, 20⟩)
    else if i = 2 then some (some ⟨none, none, 30⟩)
    else none⟩

/-- A second run of the same positions: a matching column set, a reordered
column set, and two further counts. -/
def sampleSecond : QueryBenchmark Unit :=
  ⟨4, fun i =>
    if i = 0 then some (some ⟨some ⟨[10, 11, 12, 13, 14], ()⟩, none, 15⟩)
    else if i = 1 then some (some ⟨some ⟨[2, 1], ()⟩, none, 25⟩)
    else if i = 2 then some (some ⟨none, some 1, 35⟩)
    else if i = 3 then some (some ⟨none, some 1, 45⟩)
    else none⟩

/-- A benchmark of one position whose key 0 holds a nil `*Query` (a JSON
`null` under the key 0). -/
def nilRun : QueryBenchmark Unit := ⟨1, fun i => if i = 0 then some none else none⟩

/-- A first run of two queries of `2 ^ 62 + 5` nanoseconds each. -/
def overflowFirst : QueryBenchmark Unit :=
  ⟨2, fun i =>
    if i = 0 ∨ i = 1 then some (some ⟨none, some 1, 4611686018427387909⟩) else none⟩

/-- A second run of two queries of `2 ^ 62 + 10` nanoseconds each. -/
def overflowSecond : QueryBenchmark Unit :=
  ⟨2, fun i =>
    if i = 0 ∨ i = 1 then some (some ⟨none, some 1, 4611686018427387914⟩) else none⟩

/-- A first run of one query with the recorded duration -10ns. -/
def negativeTimeFirst : QueryBenchmark Unit :=
  ⟨1, fun i => if i = 0 then some (some ⟨none, some 1, -10⟩) else none⟩

/-- A second run of one query with the recorded duration 5ns. -/
def negativeTimeSecond : QueryBenchmark Unit :=
  ⟨1, fun i => if i = 0 then some (some ⟨none, some 1, 5⟩) else none⟩

/-- An ingest artifact recording a total duration of 1s. -/
def ingestOneSecond : SoloBenchmark Unit := ⟨"ingest", "candidate", 1000000000, none, []⟩

/-- An ingest artifact recording a total duration of 1.25s. -/
def ingestFiveQuarters : SoloBenchmark Unit := ⟨"ingest", "primary", 1250000000, none, []⟩

/-! ### `ExecuteCompare` -/

/-- The comparison `ExecuteCompare` calls, with what the comparison handed to
its printer: the `Benchmark` of `compareIngest`, or the list of `compareQueries`
(`none` when `compareQueries` panicked before printing). -/
inductive CompareCall where
  | compareIngest (printed : Benchmark)
  | compareQueries (printed : Option (List Benchmark))
deriving DecidableEq, Repr

/-- What a run of `ExecuteCompare` did: the comparisons it called, in order,
and how it ended. -/
structure CompareRun where
  calls : List CompareCall
  outcome : Outcome
deriving DecidableEq, Repr

/-- The declarations of package `dx` that `ExecuteCompare` uses without
defining them: the constant `cmdIngest`, the reader of result files (which
returns a non-nil artifact when its error is nil) and the two printers, each
with its outcome. -/
structure CompareEnv (A : Type) where
  cmdIngest : String
  readResultFile : String → String → Except String (SoloBenchmark A)
  printIngestResults : Benchmark → Option String
  printQueryResults : List Benchmark → Option String

/-- The error `compareIngest` returns: that of `printIngestResults`, wrapped. -/
def compareIngestError (env : CompareEnv A) (bench1 bench2 : SoloBenchmark A) : Option String :=
  match env.printIngestResults (compareIngest bench1 bench2) with
  | some e => some ("error printing ingest results: " ++ e)
  | none => none

/-- The error `compareQueries` returns: that of `printQueryResults`, wrapped;
the outer `none` is a panic. `compareQueryBenchmarks` never returns an error. -/
def compareQueriesError (env : CompareEnv A) (bench1 bench2 : SoloBenchmark A) :
    Option (Option String) :=
  match compareQueries bench1 bench2 with
  | none => none
  | some benchmarks =>
    match env.printQueryResults benchmarks with
    | some e => some (some ("error printing query results: " ++ e))
    | none => some none

/-- Function `ExecuteCompare` of `solo_compare.go`. -/
def ExecuteCompare (env : CompareEnv A) (file1 file2 : String) : CompareRun :=
  match env.readResultFile file1 "" with
  | .error e => ⟨[], .returned (some ("error reading file " ++ file1 ++ ": " ++ e))⟩
  | .ok bench1 =>
    match env.readResultFile file2 "" with
    | .error e => ⟨[], .returned (some ("error reading file " ++ file2 ++ ": " ++ e))⟩
    | .ok bench2 =>
      if bench1.Type_ ≠ bench2.Type_ then
        ⟨[], .returned (some ("cannot compare results of type " ++ bench1.Type_ ++ " and " ++
          bench2.Type_))⟩
      else if bench1.Type_ = env.cmdIngest then
        match compareIngestError env bench1 bench2 with
        | some e =>
          ⟨[.compareIngest (compareIngest bench1 bench2)],
            .returned (some ("error comparing ingest: " ++ e))⟩
        | none => ⟨[.compareIngest (compareIngest bench1 bench2)], .returned none⟩
      else
        match compareQueriesError env bench1 bench2 with
        | none => ⟨[.compareQueries (compareQueries bench1 bench2)], .panicked⟩
        | some (some e) =>
          ⟨[.compareQueries (compareQueries bench1 bench2)],
            .returned (some ("error comparing queries: " ++ e))⟩
        | some none => ⟨[.compareQueries (compareQueries bench1 bench2)], .returned none⟩

/-- A query artifact with one benchmark. -/
def queryArtifact : SoloBenchmark Unit := ⟨"query", "candidate", 0, some 1, [some sampleFirst]⟩

/-- A second query artifact with one benchmark. -/
def queryArtifactSecond : SoloBenchmark Unit :=
  ⟨"query", "primary", 0, some 1, [some sampleSecond]⟩

/-- A query artifact whose only benchmark is a nil pointer. -/
def queryArtifactNil : SoloBenchmark Unit := ⟨"query", "primary", 0, some 1, [none]⟩

/-- A data directory with two ingest artifacts, `i1` and `i2`, and three query
artifacts, `q1`, `q2` and `q3`; nothing can be printed while `printerFails`. -/
def compareEnv (printerFails : Bool) : CompareEnv Unit :=
  { cmdIngest := "ingest"
    readResultFile := fun file _ =>
      if file = "i1" then .ok ingestOneSecond
      else if file = "i2" then .ok ingestFiveQuarters
      else if file = "q1" then .ok queryArtifact
      else if file = "q2" then .ok queryArtifactSecond
      else if file = "q3" then .ok queryArtifactNil
      else .error "no such file"
    printIngestResults := fun _ => if printerFails then some "broken pipe" else none
    printQueryResults := fun _ => if printerFails then some "broken pipe" else none }

end Compare

/-! ## `dx solo query`: the two-phase protocol of `solo_query.go` -/

namespace SoloQuery

/-- Type `Query` as declared in `solo_query.go`; `R` is the result type
`pilosa.QueryResult` of the client library. -/
structure Query (R : Type) where
  IndexName : String
  FieldName : String
  Rows : List Int
  Result : R
  Time : Int

/-- Type `QueryBenchmark` as declared in `solo_query.go`. -/
structure QueryBenchmark (R : Type) where
  NumQueries : Int
  Time : Int
  Queries : List (Query R)

/-- Type `SoloBenchmark` as declared in `solo_query.go`. -/
structure SoloBenchmark (R : Type) where
  Command : String
  Instance : String
  NumBenchmarks : Int
  Benchmarks : List (QueryBenchmark R)
  ThreadCount : Int

/-- The `holder` of an instance: the `instance` tag (here `instance_`) and its
catalog `C`. -/
structure Holder (C : Type) where
  instance_ : String
  catalog : C

/-- The observable actions of a run. -/
inductive Event where
  | ranFirst (numQueries : Int)
  | wroteArtifact (path : String)
  | openedArtifact (path : String)
  | ranSecond (numQueries : Int)
  | printedResults (count : Nat)
  | removedArtifact (path : String)
deriving DecidableEq, Repr

/-- The data directory (path to decoded artifact) and the actions so far. -/
structure World (R : Type) where
  artifacts : String → Option (SoloBenchmark R)
  trace : List Event

/-- The declarations of package `dx` that `solo_query.go` uses without
defining them, the configuration `m`, and the outcomes of the calls that leave
the process (workers, JSON encoder, file system, printer). `jsonMarshal` is
`json.Marshal` of an artifact: its error, or the value that `json.Unmarshal`
restores from the marshalled bytes. `openError` is the text of the error of
`os.Open` on a path without a file, `readAll` the error of `ioutil.ReadAll` on
an opened file. -/
structure Env (R C : Type) where
  cmdQuery : String
  instanceCandidate : String
  instancePrimary : String
  otherInstance : String → String × Option String
  determineInstance : Except String String
  checkBenchIsFirst : Except String (Bool × String)
  getSpecs : Option String
  initializeHolder : String → Except String C
  DataDir : String
  NumQueries : List Int
  ThreadCount : Int
  NumRows : Int
  launchFirst : Holder C → Int → Int → Int → List (Query R)
  jsonMarshal : SoloBenchmark R → Except String (SoloBenchmark R)
  writeFile : String → Option String
  openError : String → String
  readAll : String → Option String
  runSecondSoloBenchmark : Holder C → QueryBenchmark R → Int → Except String Compare.Benchmark
  printQueryResults : List Compare.Benchmark → Option String
  removeFile : String → Option String

/-- The path `filepath.Join(dataDir, filename)` for two elements that are
already clean (no `.` or `..` element, no doubled or trailing separator): an
empty element is ignored, and two non-empty elements are joined with the
separator. -/
def joinPath (dataDir filename : String) : String :=
  if dataDir = "" then filename
  else if filename = "" then dataDir
  else dataDir ++ "/" ++ filename

variable {R C : Type}

/-- Function `newSoloBenchmark`. -/
def newSoloBenchmark (benchType instanceType : String) (threadCount : Int) : SoloBenchmark R :=
  { Command := benchType, Instance := instanceType, NumBenchmarks := 0, Benchmarks := [],
    ThreadCount := threadCount }

/-- Function `runFirstSoloQueries`: `make(chan *Query, numQueries)` panics
(`none`) on a negative size; otherwise the queries delivered on the channel are
summed and collected, and the function never returns an error. -/
def runFirstSoloQueries (env : Env R C) (holder : Holder C) (numQueries threadCount numRows : Int) :
    Option (QueryBenchmark R) :=
  if numQueries < 0 then none
  else
    let queries := env.launchFirst holder numQueries threadCount numRows
    some { NumQueries := numQueries
           Time := queries.foldl (fun t query => wrap64 (t + query.Time)) 0
           Queries := queries }

/-- Function `writeQueryResultFile`. -/
def writeQueryResultFile (env : Env R C) (bench : SoloBenchmark R) (filename dataDir : String)
    (w : World R) : World R × Option String :=
  match env.jsonMarshal bench with
  | .error e => (w, some ("could not marshal results to JSON: " ++ e))
  | .ok stored =>
    let path := joinPath dataDir filename
    match env.writeFile path with
    | some e => (w, some ("could not write JSON to file: " ++ e))
    | none =>
      ({ artifacts := fun p => if p = path then some stored else w.artifacts p
         trace := w.trace ++ [Event.wroteArtifact path] }, none)

/-- The loop of `executeFirstSoloQueries` over the batch sizes; `none` is the
panic of `runFirstSoloQueries`. -/
def recordAll (env : Env R C) (holder : Holder C) (threadCount numRows : Int) :
    List Int → SoloBenchmark R → World R → World R × Option (SoloBenchmark R)
  | [], solobench, w => (w, some solobench)
  | numQueries :: rest, solobench, w =>
    match runFirstSoloQueries env holder numQueries threadCount numRows with
    | none => (w, none)
    | some querybench =>
      recordAll env holder threadCount numRows rest
        { solobench with
          Benchmarks := solobench.Benchmarks ++ [querybench]
          NumBenchmarks := solobench.NumBenchmarks + 1 }
        { w with trace := w.trace ++ [Event.ranFirst numQueries] }

/-- Function `executeFirstSoloQueries`. -/
def executeFirstSoloQueries (env : Env R C) (holder : Holder C) (filename dataDir : String)
    (numBenchmarks : List Int) (threadCount numRows : Int) (w : World R) :
    World R × Outcome :=
  let solobench : SoloBenchmark R := newSoloBenchmark env.cmdQuery holder.instance_ threadCount
  match recordAll env holder threadCount numRows numBenchmarks solobench w with
  | (w1, none) => (w1, .panicked)
  | (w1, some solobench) =>
    match writeQueryResultFile env solobench filename dataDir w1 with
    | (w2, some e) =>
      (w2, .returned (some ("could not write solo queries results to file: " ++ e)))
    | (w2, none) => (w2, .returned none)

/-- Function `readQueryResultFile`: `os.Open` fails when there is no file at
the path. The data directory holds, for a file, the value that
`json.Unmarshal` leaves in `soloBench` for its bytes; the error of
`json.Unmarshal` is not looked at. -/
def readQueryResultFile (env : Env R C) (filename dataDir : String) (w : World R) :
    World R × Except String (SoloBenchmark R) :=
  let path := joinPath dataDir filename
  match w.artifacts path with
  | none => (w, .error ("could not open previous result file: " ++ env.openError path))
  | some soloBench =>
    let w1 : World R := { w with trace := w.trace ++ [Event.openedArtifact path] }
    match env.readAll path with
    | some e => (w1, .error ("could not read previous result file: " ++ e))
    | none => (w1, .ok soloBench)

/-- The loop of `executeSecondSoloQueries` over the recorded benchmarks. -/
def replayAll (env : Env R C) (holder : Holder C) (threadCount : Int) :
    List (QueryBenchmark R) → List Compare.Benchmark → World R →
      World R × Except String (List Compare.Benchmark)
  | [], benchmarks, w => (w, .ok benchmarks)
  | querybench :: rest, benchmarks, w =>
    let w1 : World R := { w with trace := w.trace ++ [Event.ranSecond querybench.NumQueries] }
    match env.runSecondSoloBenchmark holder querybench threadCount with
    | .error e => (w1, .error e)
    | .ok bench => replayAll env holder threadCount rest (benchmarks ++ [bench]) w1

/-- Function `executeSecondSoloQueries`. After the two guards,
`make([]*Benchmark, 0, solobench.NumBenchmarks)` panics on a negative
capacity. -/
def executeSecondSoloQueries (env : Env R C) (holder : Holder C) (filename dataDir : String)
    (w : World R) : World R × Outcome :=
  match readQueryResultFile env filename dataDir w with
  | (w1, .error e) => (w1, .returned (some ("could not read query result file: " ++ e)))
  | (w1, .ok solobench) =>
    if solobench.Command ≠ env.cmdQuery then
      (w1, .returned (some ("running dx solo query, but previous result shows command: " ++
        solobench.Command)))
    else
      let otherInstanceType := (env.otherInstance holder.instance_).1
      if solobench.Instance ≠ otherInstanceType then
        (w1, .returned (some ("running dx solo query on instance " ++ holder.instance_ ++
          ", but previous result file was already on " ++ solobench.Instance)))
      else if solobench.NumBenchmarks < 0 then (w1, .panicked)
      else
        match replayAll env holder solobench.ThreadCount solobench.Benchmarks [] w1 with
        | (w2, .error e) => (w2, .returned (some e))
        | (w2, .ok benchmarks) =>
          let w3 : World R :=
            { w2 with trace := w2.trace ++ [Event.printedResults benchmarks.length] }
          match env.printQueryResults benchmarks with
          | some e => (w3, .returned (some ("error printing benchmarks: " ++ e)))
          | none =>
            let path := joinPath dataDir filename
            match env.removeFile path with
            | some e =>
              (w3, .returned (some ("everything ran successfully, but previous results file " ++
                "could not be deleted: " ++ e)))
            | none =>
              ({ artifacts := fun p => if p = path then none else w3.artifacts p
                 trace := w3.trace ++ [Event.removedArtifact path] }, .returned none)

/-- Function `ExecuteSoloQueries`. The holder that `initializeHolder` builds for an
instance carries the tag of that instance. -/
def ExecuteSoloQueries (env : Env R C) (w : World R) : World R × Outcome :=
  match env.determineInstance with
  | .error e => (w, .returned (some e))
  | .ok instanceType =>
    match env.checkBenchIsFirst with
    | .error e => (w, .returned (some ("error checking if prior bench exists: " ++ e)))
    | .ok (isFirstQuery, hashFilename) =>
      let hashFilename := hashFilename ++ env.cmdQuery
      match env.getSpecs with
      | some e => (w, .returned (some ("could not parse specs: " ++ e)))
      | none =>
        let created : Except String (Holder C) :=
          if instanceType = env.instanceCandidate then
            (env.initializeHolder env.instanceCandidate).map
              (fun c => { instance_ := env.instanceCandidate, catalog := c })
          else if instanceType = env.instancePrimary then
            (env.initializeHolder env.instancePrimary).map
              (fun c => { instance_ := env.instancePrimary, catalog := c })
          else .error ("invalid instance type: " ++ instanceType)
        match created with
        | .error e => (w, .returned (some ("could not create holder for instance: " ++ e)))
        | .ok holder =>
          let first : World R × Outcome :=
            if isFirstQuery then
              executeFirstSoloQueries env holder hashFilename env.DataDir env.NumQueries
                env.ThreadCount env.NumRows w
            else (w, .returned none)
          match first with
          | (w1, .panicked) => (w1, .panicked)
          | (w1, .returned (some e)) =>
            (w1, .returned (some ("could not execute first solo queries: " ++ e)))
          | (w1, .returned none) =>
            match executeSecondSoloQueries env holder hashFilename env.DataDir w1 with
            | (w2, .panicked) => (w2, .panicked)
            | (w2, .returned (some e)) =>
              (w2, .returned (some ("could not execute second solo queries: " ++ e)))
            | (w2, .returned none) => (w2, .returned none)

/-- Modelled from the spec: `otherInstance`, declared elsewhere in package
`dx`; an instance is tagged `candidate` or `primary`, and the other instance
of one is the second of the two. Any other tag is an error. -/
def otherInstance (instanceType : String) : String × Option String :=
  if instanceType = "candidate" then ("primary", none)
  else if instanceType = "primary" then ("candidate", none)
  else ("", some ("invalid instance type: " ++ instanceType))

/-- A configuration for a run against the candidate instance with one batch of
two queries; `isFirst` is what `checkBenchIsFirst` reports, and all external
calls succeed. The result of a query, an interface value, is not restored
from JSON and reads back as the zero value. -/
def sampleEnv (isFirst : Bool) : Env Nat Unit :=
  { cmdQuery := "query"
    instanceCandidate := "candidate"
    instancePrimary := "primary"
    otherInstance := otherInstance
    determineInstance := .ok "candidate"
    checkBenchIsFirst := .ok (isFirst, "abc")
    getSpecs := none
    initializeHolder := fun _ => .ok ()
    DataDir := "data"
    NumQueries := [2]
    ThreadCount := 1
    NumRows := 2
    launchFirst := fun _ _ _ _ => [⟨"i1", "f1", [1, 2], 7, 10⟩, ⟨"i1", "f1", [3, 4], 8, 20⟩]
    jsonMarshal := fun bench =>
      .ok { bench with
            Benchmarks := bench.Benchmarks.map (fun querybench =>
              { querybench with
                Queries := querybench.Queries.map (fun query => { query with Result := 0 }) }) }
    writeFile := fun _ => none
    openError := fun path => "open " ++ path ++ ": no such file or directory"
    readAll := fun _ => none
    runSecondSoloBenchmark := fun _ qb _ => .ok ⟨qb.NumQueries, 0, 0, ⟨0, 1⟩, ⟨0, 1⟩⟩
    printQueryResults := fun _ => none
    removeFile := fun _ => none }

/-- A data directory without any artifact. -/
def emptyWorld : World Nat := { artifacts := fun _ => none, trace := [] }

/-- A data directory holding one artifact at `data/abcquery`, recorded by the
given command against the given instance. -/
def recordedWorld (command instanceType : String) : World Nat :=
  { artifacts := fun p =>
      if p = "data/abcquery" then
        some { Command := command, Instance := instanceType, NumBenchmarks := 1,
               Benchmarks := [⟨2, 30, []⟩], ThreadCount := 1 }
      else none
    trace := [] }

end SoloQuery

/-! ## Package `time` of the Go standard library

`TimeDuration` of `solo_query.go` prints a duration with `fmt.Sprintf` and the
verb `%v`, which calls `Duration.String`, and reads it back with
`time.ParseDuration`. Both are transcribed here from `time/time.go` and
`time/format.go` of the current Go release. A Go string is a list of
characters; `uint64` arithmetic that can wrap is taken modulo `2 ^ 64`. -/

namespace GoTime

/-- The byte is one of `'0'` to `'9'`. -/
def isDigit (c : Char) : Bool := decide (48 ≤ c.toNat) && decide (c.toNat ≤ 57)

/-- The value `uint64(c) - '0'` of a digit. -/
def digitVal (c : Char) : Nat := c.toNat - 48

/-- The byte `byte(digit) + '0'`. -/
def digitChar (n : Nat) : Char := Char.ofNat (n + 48)

/-- The loop of `fmtFrac`: `i` digits of `v` are still to be looked at, `buf`
is the tail of the buffer written so far. -/
def fmtFracLoop : Nat → List Char → Nat → Bool → List Char × Nat × Bool
  | 0, buf, v, print => (buf, v, print)
  | i + 1, buf, v, print =>
    let digit := v % 10
    let print := print || digit != 0
    fmtFracLoop i (if print then digitChar digit :: buf else buf) (v / 10) print

/-- Function `fmtFrac` formats the fraction of `v / 10 ^ prec` in front of `buf`,
omitting trailing zeros and, when the fraction is 0, the decimal point; it
returns the new tail and `v / 10 ^ prec`. -/
def fmtFrac (buf : List Char) (v : Nat) (prec : Nat) : List Char × Nat :=
  match fmtFracLoop prec buf v false with
  | (buf, v, print) => (if print then '.' :: buf else buf, v)

/-- The loop `for v > 0` of `fmtInt`; the fuel bounds the number of digits. -/
def fmtIntLoop : Nat → Nat → List Char → List Char
  | 0, _, buf => buf
  | fuel + 1, v, buf =>
    if v > 0 then fmtIntLoop fuel (v / 10) (digitChar (v % 10) :: buf) else buf

/-- Function `fmtInt` formats `v` in front of `buf`. A number `v` has at most `v`
digits, so the fuel `v` never runs out. -/
def fmtInt (buf : List Char) (v : Nat) : List Char :=
  if v = 0 then '0' :: buf else fmtIntLoop v v buf

/-- Method `Duration.format`, the body of `Duration.String`: the characters written
for the duration `d`, a signed 64-bit count of nanoseconds. -/
def format (d : Int) : List Char :=
  let u : Nat := (d % 2 ^ 64).toNat
  let neg := decide (d < 0)
  let u := if neg then (2 ^ 64 - u) % 2 ^ 64 else u
  if u < 1000000000 then
    if u = 0 then ['0', 's']
    else
      let (buf, prec) : List Char × Nat :=
        if u < 1000 then (['n', 's'], 0)
        else if u < 1000000 then (['µ', 's'], 3)
        else (['m', 's'], 6)
      let (buf, u) := fmtFrac buf u prec
      let buf := fmtInt buf u
      if neg then '-' :: buf else buf
  else
    let (buf, u) := fmtFrac ['s'] u 9
    let buf := fmtInt buf (u % 60)
    let u := u / 60
    let buf :=
      if u > 0 then
        let buf := fmtInt ('m' :: buf) (u % 60)
        let u := u / 60
        if u > 0 then fmtInt ('h' :: buf) u else buf
      else buf
    if neg then '-' :: buf else buf

/-- The characters `format` writes for the magnitude `u`, before the sign. -/
def formatAbs (u : Nat) : List Char :=
  if u < 1000000000 then
    if u = 0 then ['0', 's']
    else
      let (buf, prec) : List Char × Nat :=
        if u < 1000 then (['n', 's'], 0)
        else if u < 1000000 then (['µ', 's'], 3)
        else (['m', 's'], 6)
      let (buf, u) := fmtFrac buf u prec
      fmtInt buf u
  else
    let (buf, u) := fmtFrac ['s'] u 9
    let buf := fmtInt buf (u % 60)
    let u := u / 60
    if u > 0 then
      let buf := fmtInt ('m' :: buf) (u % 60)
      let u := u / 60
      if u > 0 then fmtInt ('h' :: buf) u else buf
    else buf

/-- A positive rational rounded to the nearest `float64`, ties to even (53-bit
significand, exponent range not limited: the values of `ParseDuration` stay
far from the ends of the range). -/
def roundFloat64 (x : ℚ) : ℚ :=
  if x ≤ 0 then 0
  else
    let ulp : ℚ := (2 : ℚ) ^ (Int.log 2 x - 52)
    let q := x / ulp
    let n := ⌊q⌋
    let r := q - n
    let m := if r < 1 / 2 then n else if 1 / 2 < r then n + 1 else if n % 2 = 0 then n else n + 1
    (m : ℚ) * ulp

/-- The errors of `ParseDuration`: `time: invalid duration`, `time: missing
unit in duration`, `time: unknown unit`; `outOfFuel` is not a Go error, it
marks a loop of the model that was cut short. -/
inductive DurationError where
  | invalidDuration
  | missingUnit
  | unknownUnit (u : List Char)
  | outOfFuel
deriving DecidableEq, Repr

/-- The decimal value of a run of digits read after the value `x`. -/
def decValue (ds : List Char) (x : Nat) : Nat :=
  ds.foldl (fun x c => x * 10 + digitVal c) x

/-- The loop of `leadingInt`; `none` is `errLeadingInt`. The guard
`x > 1<<63/10` keeps `x*10 + uint64(c) - '0'` below `2 ^ 64`. -/
def leadingIntLoop : List Char → Nat → Option (Nat × List Char)
  | [], x => some (x, [])
  | c :: s, x =>
    if !isDigit c then some (x, c :: s)
    else if x > 2 ^ 63 / 10 then none
    else
      let x := x * 10 + digitVal c
      if x > 2 ^ 63 then none else leadingIntLoop s x

/-- Function `leadingInt` consumes the leading `[0-9]*` of `s`. -/
def leadingInt (s : List Char) : Option (Nat × List Char) := leadingIntLoop s 0

/-- The loop of `leadingFraction`; `scale` is a `float64`. -/
def leadingFractionLoop : List Char → Nat → ℚ → Bool → Nat × ℚ × List Char
  | [], x, scale, _ => (x, scale, [])
  | c :: s, x, scale, overflow =>
    if !isDigit c then (x, scale, c :: s)
    else if overflow then leadingFractionLoop s x scale overflow
    else if x > (2 ^ 63 - 1) / 10 then leadingFractionLoop s x scale true
    else
      let y := x * 10 + digitVal c
      if y > 2 ^ 63 then leadingFractionLoop s x scale true
      else leadingFractionLoop s y (roundFloat64 (scale * 10)) overflow

/-- Function `leadingFraction` consumes the leading `[0-9]*` of `s` as a fraction
`x / scale`; on overflow it stops accumulating precision. -/
def leadingFraction (s : List Char) : Nat × ℚ × List Char := leadingFractionLoop s 0 1 false

/-- Table `unitMap`: the units of a duration, in nanoseconds. -/
def unitMap (u : List Char) : Option Nat :=
  if u = ['n', 's'] then some 1
  else if u = ['u', 's'] then some 1000
  else if u = ['µ', 's'] then some 1000
  else if u = ['μ', 's'] then some 1000
  else if u = ['m', 's'] then some 1000000
  else if u = ['s'] then some 1000000000
  else if u = ['m'] then some 60000000000
  else if u = ['h'] then some 3600000000000
  else none

/-- The Go expression `uint64(float64(f) * (float64(unit) / scale))`. -/
def fracNanos (f : Nat) (scale : ℚ) (unit : Nat) : Nat :=
  ⌊roundFloat64 (roundFloat64 f * roundFloat64 (roundFloat64 unit / scale))⌋.toNat % 2 ^ 64

/-- The test `c == '.' || '0' <= c && c <= '9'`. -/
def isNumberChar (c : Char) : Bool := c = '.' || isDigit c

/-- The step `(\.[0-9]*)?` of `ParseDuration`: the fraction `f / scale`, the
rest of the string, and `post`, whether a digit was consumed. -/
def parseFraction (s : List Char) : Nat × ℚ × List Char × Bool :=
  match s with
  | '.' :: t =>
    match leadingFraction t with
    | (f, scale, r) => (f, scale, r, t.length != r.length)
  | _ => (0, 1, s, false)

/-- The end of one iteration of `ParseDuration`: `v` and `f / scale` units of
`unit` nanoseconds are added to `d`, with the overflow checks. -/
def accumulate (v f : Nat) (scale : ℚ) (unit d : Nat) : Except DurationError Nat :=
  if v > 2 ^ 63 / unit then .error .invalidDuration
  else
    let v := v * unit
    let v := if f > 0 then (v + fracNanos f scale unit) % 2 ^ 64 else v
    if f > 0 && v > 2 ^ 63 then .error .invalidDuration
    else
      let d := (d + v) % 2 ^ 64
      if d > 2 ^ 63 then .error .invalidDuration else .ok d

/-- One iteration of the loop `for s != ""` of `ParseDuration`: a number, its
optional fraction and its unit are consumed; the rest of the string and the
new value of `d` are returned. -/
def parseComponent (s : List Char) (d : Nat) : Except DurationError (List Char × Nat) :=
  match s with
  | [] => .error .invalidDuration
  | c :: _ =>
    if !isNumberChar c then .error .invalidDuration
    else
      match leadingInt s with
      | none => .error .invalidDuration
      | some (v, s1) =>
        let pre := s.length != s1.length
        match parseFraction s1 with
        | (f, scale, s2, post) =>
          if !pre && !post then .error .invalidDuration
          else
            let u := s2.takeWhile (fun c => !isNumberChar c)
            let s3 := s2.dropWhile (fun c => !isNumberChar c)
            if u = [] then .error .missingUnit
            else
              match unitMap u with
              | none => .error (.unknownUnit u)
              | some unit =>
                match accumulate v f scale unit d with
                | .error e => .error e
                | .ok d => .ok (s3, d)

/-- The loop `for s != ""` of `ParseDuration`. Every iteration consumes at
least the unit, so a fuel above the length of `s` never runs out. -/
def parseLoop : Nat → List Char → Nat → Except DurationError Nat
  | 0, _, _ => .error .outOfFuel
  | fuel + 1, s, d =>
    if s = [] then .ok d
    else
      match parseComponent s d with
      | .error e => .error e
      | .ok (s, d) => parseLoop fuel s d

/-- Function `ParseDuration` parses a duration string `[-+]?([0-9]*(\.[0-9]*)?[a-z]+)+`.
The accumulator `d` is a `uint64` bounded by `1 << 63`, and the result is
`-Duration(d)` or `Duration(d)`. -/
def ParseDuration (s : List Char) : Except DurationError Int :=
  let (neg, s) : Bool × List Char :=
    match s with
    | c :: t => if c = '-' || c = '+' then (c = '-', t) else (false, s)
    | [] => (false, s)
  if s = ['0'] then .ok 0
  else if s = [] then .error .invalidDuration
  else
    match parseLoop (s.length + 1) s 0 with
    | .error e => .error e
    | .ok d =>
      if neg then .ok (wrap64 (-(wrap64 d)))
      else if d > 2 ^ 63 - 1 then .error .invalidDuration
      else .ok (wrap64 d)

/-- The loop of `ParseDuration` reads `r` from `s` when started at `d`, with
any sufficient fuel. -/
def ParsesTo (s : List Char) (d r : Nat) : Prop :=
  ∀ fuel, s.length < fuel → parseLoop fuel s d = .ok r

end GoTime

/-! ## `TimeDuration` of `solo_query.go` -/

namespace SoloQuery

open GoTime

/-- The double quote, the cutset of `strings.Trim` in `UnmarshalJSON`. -/
def quoteChar : Char := Char.ofNat 34

/-- Function `strings.Trim(s, cutset)` for the cutset of the double quote: all leading
and trailing quotes are removed. -/
def trimQuotes (s : List Char) : List Char :=
  ((s.dropWhile (fun c => c = quoteChar)).reverse.dropWhile (fun c => c = quoteChar)).reverse

/-- Type `TimeDuration` wraps `time.Duration` for encoding to JSON. -/
structure TimeDuration where
  Duration : Int
deriving DecidableEq, Repr

/-- Method `TimeDuration.MarshalJSON`: the duration printed with `%v` between two
double quotes; the error is always nil. -/
def TimeDuration.MarshalJSON (d : TimeDuration) : List Char :=
  quoteChar :: (format d.Duration ++ [quoteChar])

/-- Method `TimeDuration.UnmarshalJSON`: the receiver after the call and the error.
Both results of `time.ParseDuration` are assigned, so the receiver holds 0
after an error. -/
def TimeDuration.UnmarshalJSON (_d : TimeDuration) (b : List Char) :
    TimeDuration × Option DurationError :=
  match ParseDuration (trimQuotes b) with
  | .ok v => (⟨v⟩, none)
  | .error e => (⟨0⟩, some e)

/-- The bytes of the JSON number for the integer `n`: its decimal digits after
an optional minus sign. -/
def jsonInteger (n : Int) : List Char :=
  if n < 0 then '-' :: fmtInt [] n.natAbs else fmtInt [] n.natAbs

end SoloQuery

/-! ## The enum `valueOrder` of `imagine/pkg/enums_valueorder.go`

The type `valueOrder` is declared outside the file; the test `i < 0` of
`String` is that of a signed integer type, and its values are integers here.
Strings are lists of characters; all the names are ASCII. -/

namespace Imagine

/-- The constant `_valueOrderName`. -/
def _valueOrderName : List Char := "linearstridepermutezipf".toList

/-- The array `_valueOrderIndex`. -/
def _valueOrderIndex : List Nat := [0, 6, 12, 19, 23]

/-- The Go slice expression `s[lo:hi]` of a string. -/
def slice (s : List Char) (lo hi : Nat) : List Char := (s.drop lo).take (hi - lo)

/-- The output of `fmt.Sprintf` for the verb `%d`. -/
def formatDecimal (i : Int) : List Char :=
  if i < 0 then '-' :: GoTime.fmtInt [] i.natAbs else GoTime.fmtInt [] i.natAbs

/-- Method `valueOrder.String`. The two index expressions are in range behind
the guard. -/
def valueOrder.String (i : Int) : List Char :=
  if i < 0 ∨ i ≥ ((_valueOrderIndex.length - 1 : Nat) : Int) then
    "valueOrder(".toList ++ formatDecimal i ++ ")".toList
  else
    slice _valueOrderName (_valueOrderIndex.getD i.toNat 0)
      (_valueOrderIndex.getD (i.toNat + 1) 0)

/-- The slice `_valueOrderValues`. -/
def _valueOrderValues : List Int := [0, 1, 2, 3]

/-- The map `_valueOrderNameToValueMap`, as the list of its entries. -/
def _valueOrderNameToValueMap : List (List Char × Int) :=
  [(slice _valueOrderName 0 6, 0),
   (slice _valueOrderName 6 12, 1),
   (slice _valueOrderName 12 19, 2),
   (slice _valueOrderName 19 23, 3)]

/-- Function `valueOrderString` retrieves an enum value from its name, or
fails with `<s> does not belong to valueOrder values`. -/
def valueOrderString (s : List Char) : Except (List Char) Int :=
  match _valueOrderNameToValueMap.lookup s with
  | some val => .ok val
  | none => .error (s ++ " does not belong to valueOrder values".toList)

/-- Function `valueOrderValues` returns all values of the enum. -/
def valueOrderValues : List Int := _valueOrderValues

/-- Method `valueOrder.IsAvalueOrder`. -/
def valueOrder.IsAvalueOrder (i : Int) : Bool := _valueOrderValues.any (fun v => i = v)

/-- Method `valueOrder.MarshalText`: the bytes and the error, always nil. -/
def valueOrder.MarshalText (i : Int) : List Char × Option (List Char) :=
  (valueOrder.String i, none)

/-- Method `valueOrder.UnmarshalText`: the receiver after the call and the
error. Both results of `valueOrderString` are assigned, so the receiver is 0
after an error. -/
def valueOrder.UnmarshalText (_i : Int) (text : List Char) : Int × Option (List Char) :=
  match valueOrderString text with
  | .ok v => (v, none)
  | .error e => (0, some e)

end Imagine

end Dx

/-! ## Theorems -/

namespace Dx

theorem wrap64_add_left (a b : Int) : wrap64 (wrap64 a + b) = wrap64 (a + b) := by
  unfold wrap64; omega

theorem wrap64_idem (a : Int) : wrap64 (wrap64 a) = wrap64 a := by
  unfold wrap64; omega

theorem wrap64_of_range (a : Int) (h1 : -2 ^ 63 ≤ a) (h2 : a < 2 ^ 63) : wrap64 a = a := by
  unfold wrap64; omega

theorem wrap64_sub_wrap (a b : Int) : wrap64 (wrap64 a - wrap64 b) = wrap64 (a - b) := by
  unfold wrap64; omega

namespace GoTime

/-! ### `ParseDuration` inverts `Duration.String` -/

theorem digitChar_facts : ∀ n : Fin 10,
    isDigit (digitChar n) = true ∧ digitVal (digitChar n) = n := by
  decide

theorem isDigit_digitChar (n : Nat) (h : n < 10) : isDigit (digitChar n) = true :=
  (digitChar_facts ⟨n, h⟩).1

theorem digitVal_digitChar (n : Nat) (h : n < 10) : digitVal (digitChar n) = n :=
  (digitChar_facts ⟨n, h⟩).2

theorem decValue_append (ds es : List Char) (x : Nat) :
    decValue (ds ++ es) x = decValue es (decValue ds x) := by
  simp [decValue, List.foldl_append]

theorem le_decValue (ds : List Char) (x : Nat) : x ≤ decValue ds x := by
  induction ds generalizing x with
  | nil => simp [decValue]
  | cons c ds ih =>
    have := ih (x * 10 + digitVal c)
    simp only [decValue, List.foldl_cons] at this ⊢
    omega

theorem fmtIntLoop_spec (fuel v : Nat) (buf : List Char) (h : v ≤ fuel) :
    ∃ ds, fmtIntLoop fuel v buf = ds ++ buf ∧ (∀ c ∈ ds, isDigit c = true) ∧
      (∀ x, decValue ds x = x * 10 ^ ds.length + v) ∧ (0 < v → ds ≠ []) := by
  induction fuel generalizing v buf with
  | zero =>
    have hv : v = 0 := by omega
    subst hv
    exact ⟨[], by simp [fmtIntLoop], by simp, by simp [decValue], by simp⟩
  | succ fuel ih =>
    by_cases hv : v > 0
    · obtain ⟨ds, hds, hdig, hval, _⟩ := ih (v / 10) (digitChar (v % 10) :: buf) (by omega)
      refine ⟨ds ++ [digitChar (v % 10)], ?_, ?_, ?_, ?_⟩
      · simp [fmtIntLoop, hv, hds]
      · intro c hc
        rcases List.mem_append.mp hc with hc | hc
        · exact hdig c hc
        · simp at hc; rw [hc]; exact isDigit_digitChar _ (Nat.mod_lt _ (by decide))
      · intro x
        rw [decValue_append, hval]
        simp only [decValue, List.foldl_cons, List.foldl_nil, List.length_append,
          List.length_singleton]
        rw [digitVal_digitChar _ (Nat.mod_lt _ (by decide)), pow_succ]
        have := Nat.div_add_mod v 10
        nlinarith [this]
      · intro _; simp
    · have hv0 : v = 0 := by omega
      subst hv0
      exact ⟨[], by simp [fmtIntLoop], by simp, by simp [decValue], by simp⟩

theorem fmtInt_spec (buf : List Char) (v : Nat) :
    ∃ ds, fmtInt buf v = ds ++ buf ∧ (∀ c ∈ ds, isDigit c = true) ∧
      (∀ x, decValue ds x = x * 10 ^ ds.length + v) ∧ ds ≠ [] := by
  by_cases hv : v = 0
  · subst hv
    refine ⟨['0'], by simp [fmtInt], ?_, ?_, by simp⟩
    · intro c hc; simp at hc; rw [hc]; decide
    · intro x; simp [decValue]; decide
  · obtain ⟨ds, h1, h2, h3, h4⟩ := fmtIntLoop_spec v v buf (le_refl _)
    exact ⟨ds, by simp [fmtInt, hv, h1], h2, h3, h4 (by omega)⟩

theorem leadingIntLoop_stop (rest : List Char) (x : Nat)
    (hr : ∀ c, rest.head? = some c → isDigit c = false) :
    leadingIntLoop rest x = some (x, rest) := by
  cases rest with
  | nil => rfl
  | cons c t => simp [leadingIntLoop, hr c rfl]

theorem leadingIntLoop_digits (ds rest : List Char) (x : Nat)
    (hd : ∀ c ∈ ds, isDigit c = true)
    (hr : ∀ c, rest.head? = some c → isDigit c = false)
    (hb : decValue ds x ≤ 2 ^ 63) :
    leadingIntLoop (ds ++ rest) x = some (decValue ds x, rest) := by
  induction ds generalizing x with
  | nil => simpa [decValue] using leadingIntLoop_stop rest x hr
  | cons c ds ih =>
    have hc : isDigit c = true := hd c (List.mem_cons_self _ _)
    have hb' : decValue ds (x * 10 + digitVal c) ≤ 2 ^ 63 := by
      simpa [decValue] using hb
    have hle := le_decValue ds (x * 10 + digitVal c)
    have h1 : ¬ x > 2 ^ 63 / 10 := by omega
    have h2 : ¬ x * 10 + digitVal c > 2 ^ 63 := by omega
    simp only [List.cons_append, leadingIntLoop, hc, Bool.not_true, Bool.false_eq_true,
      if_false, h1, h2, List.append_eq]
    rw [ih _ (fun c hc => hd c (List.mem_cons_of_mem _ hc)) hb']
    simp [decValue]

theorem roundFloat64_natCast (n : ℕ) (h : n < 2 ^ 53) : roundFloat64 (n : ℚ) = n := by
  unfold roundFloat64
  by_cases h0 : n = 0
  · subst h0; simp
  · have hpos : (0 : ℚ) < n := by
      have : 0 < n := Nat.pos_of_ne_zero h0
      exact_mod_cast this
    rw [if_neg (not_le.mpr hpos)]
    have hlog : Int.log 2 (n : ℚ) = (Nat.log 2 n : ℤ) := Int.log_natCast 2 n
    have he : Nat.log 2 n ≤ 52 := by
      have := Nat.log_lt_of_lt_pow h0 h
      omega
    have hulp : (2 : ℚ) ^ ((Nat.log 2 n : ℤ) - 52) = ((2 : ℚ) ^ (52 - Nat.log 2 n))⁻¹ := by
      rw [← zpow_natCast, ← zpow_neg]
      congr 1
      omega
    have hq : (n : ℚ) / ((2 : ℚ) ^ (52 - Nat.log 2 n))⁻¹ =
        (((n * 2 ^ (52 - Nat.log 2 n) : ℕ) : ℤ) : ℚ) := by
      rw [div_inv_eq_mul]; push_cast; ring
    simp only [hlog, hulp, hq, Int.floor_intCast, sub_self]
    norm_num

theorem fracNanos_exact (f k prec : Nat) (hf : f < 10 ^ k) (hk : k ≤ prec) (hp : prec ≤ 9) :
    fracNanos f ((10 : ℚ) ^ k) (10 ^ prec) = f * 10 ^ (prec - k) := by
  have hpow : (10 : Nat) ^ prec ≤ 10 ^ 9 := Nat.pow_le_pow_right (by decide) hp
  have hpowk : (10 : Nat) ^ k ≤ 10 ^ prec := Nat.pow_le_pow_right (by decide) hk
  have hsplit : (10 : Nat) ^ prec = 10 ^ (prec - k) * 10 ^ k := by
    rw [← pow_add]; congr 1; omega
  have hkpos : 0 < (10 : Nat) ^ k := by positivity
  have hprod : f * 10 ^ (prec - k) < 10 ^ prec := by
    rw [hsplit, mul_comm]
    exact Nat.mul_lt_mul_of_pos_left hf (by positivity)
  have h1 : roundFloat64 ((f : ℕ) : ℚ) = f := roundFloat64_natCast f (by omega)
  have h2 : roundFloat64 (((10 ^ prec : ℕ)) : ℚ) = ((10 ^ prec : ℕ) : ℚ) :=
    roundFloat64_natCast _ (by omega)
  have h3 : ((10 ^ prec : ℕ) : ℚ) / (10 : ℚ) ^ k = ((10 ^ (prec - k) : ℕ) : ℚ) := by
    rw [hsplit]; push_cast
    have : (10 : ℚ) ^ k ≠ 0 := by positivity
    field_simp
  have hle : (10 : Nat) ^ (prec - k) ≤ 10 ^ prec := Nat.pow_le_pow_right (by decide) (by omega)
  have h4 : roundFloat64 ((10 ^ (prec - k) : ℕ) : ℚ) = ((10 ^ (prec - k) : ℕ) : ℚ) :=
    roundFloat64_natCast _ (by omega)
  have h5 : roundFloat64 (((f * 10 ^ (prec - k) : ℕ)) : ℚ) = ((f * 10 ^ (prec - k) : ℕ) : ℚ) :=
    roundFloat64_natCast _ (by omega)
  unfold fracNanos
  rw [h1, h2, h3, h4]
  rw [show ((f : ℚ) * ((10 ^ (prec - k) : ℕ) : ℚ)) = ((f * 10 ^ (prec - k) : ℕ) : ℚ) by push_cast; ring]
  rw [h5]
  rw [show (((f * 10 ^ (prec - k) : ℕ) : ℚ)) = (((f * 10 ^ (prec - k) : ℕ) : ℤ) : ℚ) by push_cast; ring]
  rw [Int.floor_intCast, Int.toNat_natCast]
  omega

theorem fmtFracLoop_spec (i : Nat) (buf : List Char) (v : Nat) (print : Bool) :
    ∃ ds, fmtFracLoop i buf v print =
        (ds ++ buf, v / 10 ^ i, print || decide (v % 10 ^ i ≠ 0)) ∧
      (∀ c ∈ ds, isDigit c = true) ∧ ds.length ≤ i ∧
      decValue ds 0 * 10 ^ (i - ds.length) = v % 10 ^ i ∧
      (print = true → ds.length = i) ∧
      (print = false → v % 10 ^ i = 0 → ds = []) ∧
      (print = false → v % 10 ^ i ≠ 0 → ds ≠ []) := by
  induction i generalizing buf v print with
  | zero =>
    refine ⟨[], ?_, by simp, by simp, ?_, by simp, by simp, ?_⟩
    · simp [fmtFracLoop, Nat.mod_one]
    · simp [decValue, Nat.mod_one]
    · intro _ h; simp [Nat.mod_one] at h
  | succ i ih =>
    have hmod : v % 10 ^ (i + 1) = v % 10 + 10 * (v / 10 % 10 ^ i) := by
      rw [pow_succ', Nat.mod_mul]
    have hdiv : v / 10 / 10 ^ i = v / 10 ^ (i + 1) := by
      rw [Nat.div_div_eq_div_mul, pow_succ, mul_comm]
    by_cases hp : (print || (v % 10 != 0)) = true
    · obtain ⟨ds, h1, h2, h3, h4, h5, _, _⟩ :=
        ih (digitChar (v % 10) :: buf) (v / 10) true
      have hlen : ds.length = i := h5 rfl
      refine ⟨ds ++ [digitChar (v % 10)], ?_, ?_, ?_, ?_, ?_, ?_, ?_⟩
      · rw [fmtFracLoop]
        simp only [hp, if_true]
        rw [h1, hdiv]
        have hb : (print || decide (v % 10 ^ (i + 1) ≠ 0)) = true := by
          cases print with
          | true => rfl
          | false =>
            simp only [Bool.false_or, bne_iff_ne, ne_eq] at hp
            simp only [Bool.false_or, decide_eq_true_eq, hmod]
            omega
        rw [hb]
        simp
      · intro c hc
        rcases List.mem_append.mp hc with hc | hc
        · exact h2 c hc
        · simp at hc; rw [hc]; exact isDigit_digitChar _ (Nat.mod_lt _ (by decide))
      · simp [hlen]
      · rw [decValue_append]
        simp only [decValue, List.foldl_cons, List.foldl_nil, List.length_append,
          List.length_singleton, hlen, Nat.sub_self, pow_zero, mul_one]
        rw [digitVal_digitChar _ (Nat.mod_lt _ (by decide))]
        rw [hlen, Nat.sub_self, pow_zero, mul_one] at h4
        simp only [decValue] at h4
        rw [h4, hmod]
        omega
      · intro _; simp [hlen]
      · intro hpf hz
        exfalso
        rw [hpf] at hp
        simp only [Bool.false_or, bne_iff_ne, ne_eq] at hp
        omega
      · intro _ _; simp
    · have hpf : print = false := by
        cases print with
        | true => simp at hp
        | false => rfl
      have hd0 : v % 10 = 0 := by
        rw [hpf] at hp
        simpa using hp
      obtain ⟨ds, h1, h2, h3, h4, _, h6, h7⟩ := ih buf (v / 10) false
      refine ⟨ds, ?_, h2, by omega, ?_, ?_, ?_, ?_⟩
      · have hp' : (print || v % 10 != 0) = false := by simpa using hp
        rw [fmtFracLoop]
        simp only [hp', Bool.false_eq_true, if_false]
        rw [h1, hdiv]
        have hb : (print || decide (v % 10 ^ (i + 1) ≠ 0)) =
            (false || decide (v / 10 % 10 ^ i ≠ 0)) := by
          rw [hpf, hmod, hd0]
          simp
        rw [hb]
      · rw [hmod, hd0, ← h4]
        have : i + 1 - ds.length = (i - ds.length) + 1 := by omega
        rw [this, pow_succ]
        ring
      · intro h; rw [hpf] at h; exact absurd h (by decide)
      · intro _ hz
        apply h6 rfl
        omega
      · intro _ hnz
        apply h7 rfl
        omega

theorem fmtFrac_zero (buf : List Char) (v prec : Nat) (h : v % 10 ^ prec = 0) :
    fmtFrac buf v prec = (buf, v / 10 ^ prec) := by
  obtain ⟨ds, h1, _, _, _, _, h6, _⟩ := fmtFracLoop_spec prec buf v false
  have hds := h6 rfl h
  subst hds
  simp [fmtFrac, h1, h]

theorem fmtFrac_nonzero (buf : List Char) (v prec : Nat) (h : v % 10 ^ prec ≠ 0) :
    ∃ ds, fmtFrac buf v prec = ('.' :: (ds ++ buf), v / 10 ^ prec) ∧
      (∀ c ∈ ds, isDigit c = true) ∧ ds ≠ [] ∧ ds.length ≤ prec ∧
      decValue ds 0 * 10 ^ (prec - ds.length) = v % 10 ^ prec := by
  obtain ⟨ds, h1, h2, h3, h4, _, _, h7⟩ := fmtFracLoop_spec prec buf v false
  exact ⟨ds, by simp [fmtFrac, h1, h], h2, h7 rfl h, h3, h4⟩

theorem leadingFractionLoop_stop (rest : List Char) (x : Nat) (scale : ℚ) (o : Bool)
    (hr : ∀ c, rest.head? = some c → isDigit c = false) :
    leadingFractionLoop rest x scale o = (x, scale, rest) := by
  cases rest with
  | nil => rfl
  | cons c t => simp [leadingFractionLoop, hr c rfl]

theorem leadingFractionLoop_digits (ds rest : List Char) (x j : Nat)
    (hd : ∀ c ∈ ds, isDigit c = true)
    (hr : ∀ c, rest.head? = some c → isDigit c = false)
    (hb : decValue ds x < 2 ^ 63) (hj : j + ds.length ≤ 15) :
    leadingFractionLoop (ds ++ rest) x ((10 : ℚ) ^ j) false =
      (decValue ds x, (10 : ℚ) ^ (j + ds.length), rest) := by
  induction ds generalizing x j with
  | nil => simpa [decValue] using leadingFractionLoop_stop rest x _ false hr
  | cons c ds ih =>
    have hc : isDigit c = true := hd c (List.mem_cons_self _ _)
    have hb' : decValue ds (x * 10 + digitVal c) < 2 ^ 63 := by
      simpa [decValue] using hb
    have hle := le_decValue ds (x * 10 + digitVal c)
    have h1 : ¬ x > (2 ^ 63 - 1) / 10 := by omega
    have h2 : ¬ x * 10 + digitVal c > 2 ^ 63 := by omega
    have hlen : j + 1 + ds.length ≤ 15 := by
      simp only [List.length_cons] at hj; omega
    have hpow : (10 : Nat) ^ (j + 1) < 2 ^ 53 := by
      have : (10 : Nat) ^ (j + 1) ≤ 10 ^ 15 := Nat.pow_le_pow_right (by decide) (by omega)
      omega
    have hscale : roundFloat64 ((10 : ℚ) ^ j * 10) = (10 : ℚ) ^ (j + 1) := by
      have := roundFloat64_natCast (10 ^ (j + 1)) hpow
      rw [show (10 : ℚ) ^ j * 10 = ((10 ^ (j + 1) : ℕ) : ℚ) by push_cast; ring, this]
      push_cast; ring
    simp only [List.cons_append, leadingFractionLoop, hc, Bool.not_true, Bool.false_eq_true,
      if_false, h1, h2, List.append_eq, hscale]
    rw [ih _ _ (fun c hc => hd c (List.mem_cons_of_mem _ hc)) hb' hlen]
    simp only [decValue, List.foldl_cons, List.length_cons]
    congr 2
    congr 1
    omega

theorem isDigit_of_isNumberChar_false (c : Char) (h : isNumberChar c = false) :
    isDigit c = false := by
  unfold isNumberChar at h
  simp only [Bool.or_eq_false_iff] at h
  exact h.2

theorem ne_dot_of_isNumberChar_false (c : Char) (h : isNumberChar c = false) : c ≠ '.' := by
  unfold isNumberChar at h
  simp only [Bool.or_eq_false_iff, decide_eq_false_iff_not] at h
  exact h.1

theorem isNumberChar_of_isDigit (c : Char) (h : isDigit c = true) : isNumberChar c = true := by
  simp [isNumberChar, h]

theorem split_unit (unit rest : List Char) (hu : ∀ c ∈ unit, isNumberChar c = false)
    (hr : ∀ c, rest.head? = some c → isNumberChar c = true) :
    (unit ++ rest).takeWhile (fun c => !isNumberChar c) = unit ∧
    (unit ++ rest).dropWhile (fun c => !isNumberChar c) = rest := by
  induction unit with
  | nil =>
    cases rest with
    | nil => simp
    | cons c t => simp [List.takeWhile, List.dropWhile, hr c rfl]
  | cons c unit ih =>
    have hc := hu c (List.mem_cons_self _ _)
    have := ih (fun c hc => hu c (List.mem_cons_of_mem _ hc))
    simp [List.takeWhile, List.dropWhile, hc, this]

theorem digitVal_le (c : Char) (h : isDigit c = true) : digitVal c ≤ 9 := by
  unfold isDigit at h
  unfold digitVal
  simp only [Bool.and_eq_true, decide_eq_true_eq] at h
  omega

theorem decValue_lt (ds : List Char) (x : Nat) (hd : ∀ c ∈ ds, isDigit c = true) :
    decValue ds x < (x + 1) * 10 ^ ds.length := by
  induction ds generalizing x with
  | nil => simp [decValue]
  | cons c ds ih =>
    have hc := digitVal_le c (hd c (List.mem_cons_self _ _))
    have := ih (x * 10 + digitVal c) (fun c hc => hd c (List.mem_cons_of_mem _ hc))
    simp only [decValue, List.foldl_cons, List.length_cons] at this ⊢
    calc List.foldl (fun x c => x * 10 + digitVal c) (x * 10 + digitVal c) ds
        < (x * 10 + digitVal c + 1) * 10 ^ ds.length := this
      _ ≤ ((x + 1) * 10) * 10 ^ ds.length := Nat.mul_le_mul_right _ (by omega)
      _ = (x + 1) * 10 ^ (ds.length + 1) := by rw [pow_succ]; ring

theorem parseFraction_none (c : Char) (t : List Char) (h : c ≠ '.') :
    parseFraction (c :: t) = (0, 1, c :: t, false) := by
  unfold parseFraction
  split
  · rename_i heq
    simp only [List.cons.injEq] at heq
    exact absurd heq.1 h
  · rfl

theorem parseFraction_digits (fds rest : List Char) (hd : ∀ c ∈ fds, isDigit c = true)
    (hne : fds ≠ []) (hr : ∀ c, rest.head? = some c → isDigit c = false)
    (hlen : fds.length ≤ 9) :
    parseFraction ('.' :: (fds ++ rest)) =
      (decValue fds 0, (10 : ℚ) ^ fds.length, rest, true) ∧ decValue fds 0 < 10 ^ fds.length := by
  have hlt := decValue_lt fds 0 hd
  rw [zero_add, one_mul] at hlt
  have hpow : (10 : Nat) ^ fds.length ≤ 10 ^ 9 := Nat.pow_le_pow_right (by decide) hlen
  have hloop := leadingFractionLoop_digits fds rest 0 0 hd hr (by omega) (by omega)
  rw [pow_zero, zero_add] at hloop
  refine ⟨?_, hlt⟩
  unfold parseFraction leadingFraction
  simp only [hloop, List.length_append]
  simp
  exact hne

theorem accumulate_int (v U d : Nat) (scale : ℚ)
    (hvU : v ≤ 2 ^ 63 / U) (hd : d + v * U ≤ 2 ^ 63) :
    accumulate v 0 scale U d = .ok (d + v * U) := by
  have hmod : (d + v * U) % 2 ^ 64 = d + v * U := Nat.mod_eq_of_lt (by omega)
  have hnot : ¬ (2 ^ 63 < d + v * U) := by omega
  have hnot2 : ¬ (2 ^ 63 / U < v) := by omega
  simp only [accumulate, gt_iff_lt, hnot2, if_false, lt_self_iff_false, decide_False,
    Bool.false_and, Bool.false_eq_true, hmod, hnot]

theorem parseComponent_int (ids unit rest : List Char) (v U d : Nat)
    (hids : ∀ c ∈ ids, isDigit c = true) (hne : ids ≠ [])
    (hval : decValue ids 0 = v)
    (hune : unit ≠ []) (hu : ∀ c ∈ unit, isNumberChar c = false)
    (hU : unitMap unit = some U)
    (hr : ∀ c, rest.head? = some c → isNumberChar c = true)
    (hvU : v ≤ 2 ^ 63 / U) (hv : v ≤ 2 ^ 63) (hd : d + v * U ≤ 2 ^ 63) :
    parseComponent (ids ++ (unit ++ rest)) d = .ok (rest, d + v * U) := by
  obtain ⟨c0, ids', rfl⟩ : ∃ c t, ids = c :: t := by
    cases ids with
    | nil => exact absurd rfl hne
    | cons c t => exact ⟨c, t, rfl⟩
  obtain ⟨u0, unit', rfl⟩ : ∃ c t, unit = c :: t := by
    cases unit with
    | nil => exact absurd rfl hune
    | cons c t => exact ⟨c, t, rfl⟩
  have hc0 : isNumberChar c0 = true :=
    isNumberChar_of_isDigit c0 (hids c0 (List.mem_cons_self _ _))
  have hu0 : isNumberChar u0 = false := hu u0 (List.mem_cons_self _ _)
  have hu0d : isDigit u0 = false := isDigit_of_isNumberChar_false u0 hu0
  have hu0dot : u0 ≠ '.' := ne_dot_of_isNumberChar_false u0 hu0
  have hlead : leadingInt (c0 :: ids' ++ (u0 :: unit' ++ rest)) = some (v, u0 :: unit' ++ rest) := by
    unfold leadingInt
    rw [leadingIntLoop_digits (c0 :: ids') (u0 :: unit' ++ rest) 0 hids
      (by intro c hc; simp at hc; rw [← hc]; exact hu0d) (by rw [hval]; exact hv), hval]
  have hsplit := split_unit (u0 :: unit') rest hu hr
  have hfrac := parseFraction_none u0 (unit' ++ rest) hu0dot
  have hacc := accumulate_int v U d 1 hvU hd
  unfold parseComponent
  simp only [List.cons_append] at hlead hsplit ⊢
  simp only [hc0, hlead, hfrac, hsplit.1, hsplit.2, hU, hacc, Bool.not_true,
    Bool.false_eq_true, if_false]
  simp
  omega

theorem accumulate_frac (v f k prec d : Nat)
    (hv : v ≤ 2 ^ 63 / 10 ^ prec) (hf : f < 10 ^ k) (hk : k ≤ prec) (hp : prec ≤ 9)
    (hd : d + v * 10 ^ prec + f * 10 ^ (prec - k) ≤ 2 ^ 63) :
    accumulate v f ((10 : ℚ) ^ k) (10 ^ prec) d =
      .ok (d + v * 10 ^ prec + f * 10 ^ (prec - k)) := by
  have hex := fracNanos_exact f k prec hf hk hp
  have hnot2 : ¬ (2 ^ 63 / 10 ^ prec < v) := by omega
  by_cases hf0 : f = 0
  · subst hf0
    have hmod : (d + v * 10 ^ prec) % 2 ^ 64 = d + v * 10 ^ prec :=
      Nat.mod_eq_of_lt (by omega)
    have hnot : ¬ (2 ^ 63 < d + v * 10 ^ prec) := by omega
    simp only [accumulate, gt_iff_lt, hnot2, if_false, lt_self_iff_false, decide_False,
      Bool.false_and, Bool.false_eq_true, hmod, hnot, zero_mul, add_zero]
  · have hfpos : 0 < f := Nat.pos_of_ne_zero hf0
    have hmod1 : (v * 10 ^ prec + f * 10 ^ (prec - k)) % 2 ^ 64 =
        v * 10 ^ prec + f * 10 ^ (prec - k) := Nat.mod_eq_of_lt (by omega)
    have hmod : (d + (v * 10 ^ prec + f * 10 ^ (prec - k))) % 2 ^ 64 =
        d + v * 10 ^ prec + f * 10 ^ (prec - k) := by
      rw [Nat.mod_eq_of_lt (by omega)]; omega
    have hnot1 : ¬ (2 ^ 63 < v * 10 ^ prec + f * 10 ^ (prec - k)) := by omega
    have hnot : ¬ (2 ^ 63 < d + v * 10 ^ prec + f * 10 ^ (prec - k)) := by omega
    simp only [accumulate, gt_iff_lt, hnot2, if_false, hfpos, if_true, decide_True,
      Bool.true_and, hex, Nat.cast_pow, Nat.cast_ofNat, hmod1, hnot1, decide_False,
      Bool.false_eq_true, hmod, hnot]

theorem parseComponent_frac (ids fds unit rest : List Char) (v prec d : Nat)
    (hids : ∀ c ∈ ids, isDigit c = true) (hne : ids ≠ [])
    (hval : decValue ids 0 = v)
    (hfds : ∀ c ∈ fds, isDigit c = true) (hfne : fds ≠ []) (hflen : fds.length ≤ prec)
    (hp : prec ≤ 9)
    (hune : unit ≠ []) (hu : ∀ c ∈ unit, isNumberChar c = false)
    (hU : unitMap unit = some (10 ^ prec))
    (hr : ∀ c, rest.head? = some c → isNumberChar c = true)
    (hvU : v ≤ 2 ^ 63 / 10 ^ prec) (hv : v ≤ 2 ^ 63)
    (hd : d + v * 10 ^ prec + decValue fds 0 * 10 ^ (prec - fds.length) ≤ 2 ^ 63) :
    parseComponent (ids ++ ('.' :: (fds ++ (unit ++ rest)))) d =
      .ok (rest, d + v * 10 ^ prec + decValue fds 0 * 10 ^ (prec - fds.length)) := by
  obtain ⟨c0, ids', rfl⟩ : ∃ c t, ids = c :: t := by
    cases ids with
    | nil => exact absurd rfl hne
    | cons c t => exact ⟨c, t, rfl⟩
  obtain ⟨u0, unit', rfl⟩ : ∃ c t, unit = c :: t := by
    cases unit with
    | nil => exact absurd rfl hune
    | cons c t => exact ⟨c, t, rfl⟩
  have hc0 : isNumberChar c0 = true :=
    isNumberChar_of_isDigit c0 (hids c0 (List.mem_cons_self _ _))
  have hu0 : isNumberChar u0 = false := hu u0 (List.mem_cons_self _ _)
  have hu0d : isDigit u0 = false := isDigit_of_isNumberChar_false u0 hu0
  have hlead : leadingInt (c0 :: ids' ++ ('.' :: (fds ++ (u0 :: unit' ++ rest)))) =
      some (v, '.' :: (fds ++ (u0 :: unit' ++ rest))) := by
    unfold leadingInt
    rw [leadingIntLoop_digits (c0 :: ids') _ 0 hids
      (by intro c hc; simp at hc; rw [← hc]; decide) (by rw [hval]; exact hv), hval]
  obtain ⟨hfrac, hflt⟩ := parseFraction_digits fds (u0 :: unit' ++ rest) hfds hfne
    (by intro c hc; simp at hc; rw [← hc]; exact hu0d) (by omega)
  have hsplit := split_unit (u0 :: unit') rest hu hr
  have hacc := accumulate_frac v (decValue fds 0) fds.length prec d hvU hflt hflen hp hd
  unfold parseComponent
  simp only [List.cons_append] at hlead hsplit hfrac ⊢
  simp only [hc0, hlead, hfrac, hsplit.1, hsplit.2, hU, hacc, Bool.not_true,
    Bool.false_eq_true, if_false]
  simp

theorem parsesTo_nil (d : Nat) : ParsesTo [] d d := by
  intro fuel hf
  cases fuel with
  | zero => simp at hf
  | succ n => simp [parseLoop]

theorem parsesTo_step (s s' : List Char) (d d' r : Nat)
    (h : parseComponent s d = .ok (s', d')) (hs : s ≠ []) (hlen : s'.length < s.length)
    (hrec : ParsesTo s' d' r) : ParsesTo s d r := by
  intro fuel hf
  cases fuel with
  | zero => simp at hf
  | succ n =>
    rw [parseLoop]
    simp only [hs, if_false, h]
    exact hrec n (by omega)

/-- A formatted integer with its unit. -/
theorem parseComponent_fmtInt (unit rest : List Char) (U v d : Nat)
    (hune : unit ≠ []) (hu : ∀ c ∈ unit, isNumberChar c = false)
    (hU : unitMap unit = some U)
    (hr : ∀ c, rest.head? = some c → isNumberChar c = true)
    (hvU : v ≤ 2 ^ 63 / U) (hv : v ≤ 2 ^ 63) (hd : d + v * U ≤ 2 ^ 63) :
    ∃ body, fmtInt (unit ++ rest) v = body ++ rest ∧
      parseComponent (body ++ rest) d = .ok (rest, d + v * U) ∧
      (∃ c t, body = c :: (t ++ unit) ∧ isDigit c = true) := by
  obtain ⟨ids, h1, h2, h3, h4⟩ := fmtInt_spec (unit ++ rest) v
  have hval : decValue ids 0 = v := by rw [h3]; simp
  refine ⟨ids ++ unit, ?_, ?_, ?_⟩
  · simp only [h1, List.append_assoc]
  · rw [List.append_assoc]
    exact parseComponent_int ids unit rest v U d h2 h4 hval hune hu hU hr hvU hv hd
  · cases ids with
    | nil => exact absurd rfl h4
    | cons c t => exact ⟨c, t, rfl, h2 c (List.mem_cons_self _ _)⟩

/-- A formatted number with its unit: the digits of `v`, the fraction `fmtFrac`
prints for `w` with `prec` digits, and the unit of `10 ^ prec` nanoseconds. -/
theorem parseComponent_fmt (unit rest : List Char) (prec v w d : Nat) (hp : prec ≤ 9)
    (hune : unit ≠ []) (hu : ∀ c ∈ unit, isNumberChar c = false)
    (hU : unitMap unit = some (10 ^ prec))
    (hr : ∀ c, rest.head? = some c → isNumberChar c = true)
    (hvU : v ≤ 2 ^ 63 / 10 ^ prec) (hv : v ≤ 2 ^ 63)
    (hw : d + v * 10 ^ prec + w % 10 ^ prec ≤ 2 ^ 63) :
    ∃ body, fmtInt (fmtFrac (unit ++ rest) w prec).1 v = body ++ rest ∧
      parseComponent (body ++ rest) d = .ok (rest, d + v * 10 ^ prec + w % 10 ^ prec) ∧
      (∃ c t, body = c :: (t ++ unit) ∧ isDigit c = true) := by
  by_cases hz : w % 10 ^ prec = 0
  · rw [fmtFrac_zero _ _ _ hz]
    obtain ⟨body, h1, h2, h3⟩ := parseComponent_fmtInt unit rest (10 ^ prec) v d hune hu hU hr
      hvU hv (by omega)
    exact ⟨body, h1, by rw [h2, hz, add_zero], h3⟩
  · obtain ⟨fds, hf1, hf2, hf3, hf4, hf5⟩ := fmtFrac_nonzero (unit ++ rest) w prec hz
    rw [hf1]
    obtain ⟨ids, h1, h2, h3, h4⟩ := fmtInt_spec ('.' :: (fds ++ (unit ++ rest))) v
    have hval : decValue ids 0 = v := by rw [h3]; simp
    refine ⟨ids ++ ('.' :: (fds ++ unit)), ?_, ?_, ?_⟩
    · simp only [h1, List.append_assoc, List.cons_append]
    · have := parseComponent_frac ids fds unit rest v prec d h2 h4 hval hf2 hf3
        hf4 hp hune hu hU hr hvU hv (by rw [hf5]; exact hw)
      rw [hf5] at this
      simpa only [List.append_assoc, List.cons_append] using this
    · cases ids with
      | nil => exact absurd rfl h4
      | cons c t =>
        exact ⟨c, t ++ ('.' :: fds), by simp, h2 c (List.mem_cons_self _ _)⟩

theorem fmtFrac_snd (buf : List Char) (v prec : Nat) :
    (fmtFrac buf v prec).2 = v / 10 ^ prec := by
  obtain ⟨ds, h1, _⟩ := fmtFracLoop_spec prec buf v false
  simp [fmtFrac, h1]

/-- The last component of a formatted duration: a number with its fraction
and a unit ending in `s`, read from the accumulated value `d`. -/
theorem parsesTo_last (unit pre : List Char) (prec v w d : Nat) (hp : prec ≤ 9)
    (hs : unit = pre ++ ['s']) (hu : ∀ c ∈ unit, isNumberChar c = false)
    (hU : unitMap unit = some (10 ^ prec))
    (hvU : v ≤ 2 ^ 63 / 10 ^ prec) (hv : v ≤ 2 ^ 63)
    (hw : d + v * 10 ^ prec + w % 10 ^ prec ≤ 2 ^ 63) :
    ParsesTo (fmtInt (fmtFrac unit w prec).1 v) d (d + v * 10 ^ prec + w % 10 ^ prec) ∧
    ∃ c t, fmtInt (fmtFrac unit w prec).1 v = c :: (t ++ ['s']) ∧ isDigit c = true := by
  have hune : unit ≠ [] := by rw [hs]; simp
  obtain ⟨body, h1, h2, c, t, h3, h4⟩ := parseComponent_fmt unit [] prec v w d hp hune hu
    hU (by simp) hvU hv hw
  simp only [List.append_nil] at h1 h2
  rw [h1]
  refine ⟨?_, c, t ++ pre, ?_, h4⟩
  · apply parsesTo_step body [] d _ _ h2 (by rw [h3]; simp) (by rw [h3]; simp)
    exact parsesTo_nil _
  · rw [h3, hs]; simp

/-- A leading component (hours or minutes) in front of an already understood
remainder. -/
theorem parsesTo_lead (unitc : Char) (rest : List Char) (U v d r : Nat)
    (hu : isNumberChar unitc = false) (hU : unitMap [unitc] = some U)
    (hrest : ∃ c t, rest = c :: (t ++ ['s']) ∧ isDigit c = true)
    (hvU : v ≤ 2 ^ 63 / U) (hv : v ≤ 2 ^ 63) (hd : d + v * U ≤ 2 ^ 63)
    (hrec : ParsesTo rest (d + v * U) r) :
    ParsesTo (fmtInt (unitc :: rest) v) d r ∧
    ∃ c t, fmtInt (unitc :: rest) v = c :: (t ++ ['s']) ∧ isDigit c = true := by
  obtain ⟨rc, rt, hr1, hr2⟩ := hrest
  obtain ⟨body, h1, h2, c, t, h3, h4⟩ := parseComponent_fmtInt [unitc] rest U v d (by simp)
    (by intro c hc; simp at hc; rw [hc]; exact hu) hU
    (by intro c hc; rw [hr1] at hc; simp at hc; rw [← hc]; exact isNumberChar_of_isDigit _ hr2)
    hvU hv hd
  simp only [List.singleton_append] at h1
  rw [h1]
  refine ⟨?_, c, t ++ [unitc] ++ rc :: rt, ?_, h4⟩
  · apply parsesTo_step (body ++ rest) rest d _ _ h2 (by rw [h3]; simp)
      (by rw [h3]; simp; omega) hrec
  · rw [h3, hr1]; simp

theorem formatAbs_spec (u : Nat) (hu : u ≤ 2 ^ 63) :
    ParsesTo (formatAbs u) 0 u ∧
    ∃ c t, formatAbs u = c :: (t ++ ['s']) ∧ isDigit c = true := by
  unfold formatAbs
  by_cases h9 : u < 1000000000
  · rw [if_pos h9]
    by_cases h0 : u = 0
    · subst h0
      rw [if_pos rfl]
      have h := parsesTo_last ['s'] [] 9 0 0 0 (by decide) rfl (by decide) (by decide)
        (by decide) (by decide) (by decide)
      have he : fmtInt (fmtFrac ['s'] 0 9).1 0 = ['0', 's'] := by decide
      rw [he] at h
      exact h
    · rw [if_neg h0]
      by_cases h3 : u < 1000
      · simp only [if_pos h3, fmtFrac_snd]
        have h := parsesTo_last ['n', 's'] ['n'] 0 (u / 10 ^ 0) u 0 (by decide) rfl (by decide)
          (by decide) (by simp; omega) (by simp; omega) (by simp; omega)
        have hval : 0 + u / 10 ^ 0 * 10 ^ 0 + u % 10 ^ 0 = u := by simp [Nat.mod_one]
        rw [hval] at h
        exact h
      · simp only [if_neg h3]
        by_cases h6 : u < 1000000
        · simp only [if_pos h6, fmtFrac_snd]
          have h := parsesTo_last ['µ', 's'] ['µ'] 3 (u / 10 ^ 3) u 0 (by decide) rfl
            (by decide) (by decide) (by norm_num; omega) (by norm_num; omega)
            (by norm_num; omega)
          have hval : 0 + u / 10 ^ 3 * 10 ^ 3 + u % 10 ^ 3 = u := by norm_num; omega
          rw [hval] at h
          exact h
        · simp only [if_neg h6, fmtFrac_snd]
          have h := parsesTo_last ['m', 's'] ['m'] 6 (u / 10 ^ 6) u 0 (by decide) rfl
            (by decide) (by decide) (by norm_num; omega) (by norm_num; omega)
            (by norm_num; omega)
          have hval : 0 + u / 10 ^ 6 * 10 ^ 6 + u % 10 ^ 6 = u := by norm_num; omega
          rw [hval] at h
          exact h
  · rw [if_neg h9]
    simp only [fmtFrac_snd]
    have hS : u / 10 ^ 9 ≤ 2 ^ 63 / 10 ^ 9 := Nat.div_le_div_right hu
    by_cases hM : u / 10 ^ 9 / 60 > 0
    · rw [if_pos hM]
      by_cases hH : u / 10 ^ 9 / 60 / 60 > 0
      · rw [if_pos hH]
        have hsec := parsesTo_last ['s'] [] 9 (u / 10 ^ 9 % 60) u
          (0 + u / 10 ^ 9 / 60 / 60 * 3600000000000 + u / 10 ^ 9 / 60 % 60 * 60000000000)
          (by decide) rfl (by decide) (by decide) (by omega) (by omega) (by omega)
        have hval : 0 + u / 10 ^ 9 / 60 / 60 * 3600000000000 +
            u / 10 ^ 9 / 60 % 60 * 60000000000 + u / 10 ^ 9 % 60 * 10 ^ 9 + u % 10 ^ 9 = u := by
          omega
        rw [hval] at hsec
        have hmin := parsesTo_lead 'm' _ 60000000000 (u / 10 ^ 9 / 60 % 60)
          (0 + u / 10 ^ 9 / 60 / 60 * 3600000000000) u (by decide) (by decide) hsec.2
          (by omega) (by omega) (by omega) hsec.1
        exact parsesTo_lead 'h' _ 3600000000000 (u / 10 ^ 9 / 60 / 60) 0 u (by decide)
          (by decide) hmin.2 (by omega) (by omega) (by omega) hmin.1
      · rw [if_neg hH]
        have hsec := parsesTo_last ['s'] [] 9 (u / 10 ^ 9 % 60) u
          (0 + u / 10 ^ 9 / 60 % 60 * 60000000000)
          (by decide) rfl (by decide) (by decide) (by omega) (by omega) (by omega)
        have hval : 0 + u / 10 ^ 9 / 60 % 60 * 60000000000 + u / 10 ^ 9 % 60 * 10 ^ 9 +
            u % 10 ^ 9 = u := by
          omega
        rw [hval] at hsec
        exact parsesTo_lead 'm' _ 60000000000 (u / 10 ^ 9 / 60 % 60) 0 u (by decide)
          (by decide) hsec.2 (by omega) (by omega) (by omega) hsec.1
    · rw [if_neg hM]
      have hsec := parsesTo_last ['s'] [] 9 (u / 10 ^ 9 % 60) u 0
        (by decide) rfl (by decide) (by decide) (by omega) (by omega) (by omega)
      have hval : 0 + u / 10 ^ 9 % 60 * 10 ^ 9 + u % 10 ^ 9 = u := by
        omega
      rw [hval] at hsec
      exact hsec

theorem format_eq (d : Int) (h1 : -2 ^ 63 ≤ d) (h2 : d < 2 ^ 63) :
    format d = if d < 0 then '-' :: formatAbs d.natAbs else formatAbs d.natAbs := by
  have hu : (if decide (d < 0) = true then (2 ^ 64 - (d % 2 ^ 64).toNat) % 2 ^ 64
      else (d % 2 ^ 64).toNat) = d.natAbs := by
    by_cases hneg : d < 0
    · simp only [hneg, decide_True, if_true]; omega
    · simp only [hneg, decide_False, Bool.false_eq_true, if_false]; omega
  unfold format formatAbs
  simp only [hu]
  by_cases hneg : d < 0
  · have hne : d.natAbs ≠ 0 := by omega
    simp only [hneg, decide_True, if_true, hne, if_false]
    split_ifs <;> rfl
  · simp only [hneg, decide_False, Bool.false_eq_true, if_false]

theorem parseDuration_formatAbs (u : Nat) (hu : u ≤ 2 ^ 63) :
    ParseDuration (formatAbs u) =
      (if u > 2 ^ 63 - 1 then .error .invalidDuration else .ok (wrap64 u)) ∧
    ParseDuration ('-' :: formatAbs u) = .ok (wrap64 (-(wrap64 u))) := by
  obtain ⟨hp, c, t, hf, hc⟩ := formatAbs_spec u hu
  have hloop := hp ((formatAbs u).length + 1) (Nat.lt_succ_self _)
  have hc1 : c ≠ '-' := by intro h; rw [h] at hc; exact absurd hc (by decide)
  have hc2 : c ≠ '+' := by intro h; rw [h] at hc; exact absurd hc (by decide)
  have hne0 : c :: (t ++ ['s']) ≠ ['0'] := by
    intro h
    simp only [List.cons.injEq] at h
    have := congrArg List.length h.2
    simp at this
  constructor
  · unfold ParseDuration
    rw [hf] at hloop ⊢
    simp only [hc1, hc2, decide_False, Bool.or_self, Bool.false_eq_true, if_false, hne0,
      hloop]
    simp
  · unfold ParseDuration
    rw [hf] at hloop
    simp only [decide_True, Bool.true_or, if_true]
    rw [hf]
    simp only [hne0, if_false, hloop]
    simp

theorem wrap64_neg_natAbs (d : Int) (h1 : -2 ^ 63 ≤ d) (hd : d < 0) :
    wrap64 (-(wrap64 (d.natAbs : Int))) = d := by
  have hn : (d.natAbs : Int) = -d := by omega
  rw [hn]
  unfold wrap64
  omega

theorem wrap64_natAbs (d : Int) (h2 : d < 2 ^ 63) (hd : ¬ d < 0) :
    wrap64 (d.natAbs : Int) = d := by
  have hn : (d.natAbs : Int) = d := by omega
  rw [hn]
  unfold wrap64
  omega

theorem parseDuration_format (d : Int) (h1 : -2 ^ 63 ≤ d) (h2 : d < 2 ^ 63) :
    ParseDuration (format d) = .ok d := by
  rw [format_eq d h1 h2]
  have hu : d.natAbs ≤ 2 ^ 63 := by omega
  obtain ⟨hpos, hneg⟩ := parseDuration_formatAbs d.natAbs hu
  by_cases hd : d < 0
  · rw [if_pos hd, hneg, wrap64_neg_natAbs d h1 hd]
  · rw [if_neg hd, hpos]
    have : ¬ (d.natAbs > 2 ^ 63 - 1) := by omega
    rw [if_neg this, wrap64_natAbs d h2 hd]

theorem leadingIntLoop_all_digits (ds : List Char) (x : Nat)
    (hd : ∀ c ∈ ds, isDigit c = true) :
    leadingIntLoop ds x = none ∨ ∃ v, leadingIntLoop ds x = some (v, []) := by
  induction ds generalizing x with
  | nil => exact Or.inr ⟨x, rfl⟩
  | cons c ds ih =>
    have hc : isDigit c = true := hd c (List.mem_cons_self _ _)
    simp only [leadingIntLoop, hc, Bool.not_true, Bool.false_eq_true, if_false]
    split_ifs
    · exact Or.inl rfl
    · exact Or.inl rfl
    · exact ih _ (fun c hc => hd c (List.mem_cons_of_mem _ hc))

/-- A string of digits other than `0` is not a duration: the unit is missing,
or the number is too large. -/
theorem parseLoop_digits (ds : List Char) (hd : ∀ c ∈ ds, isDigit c = true) (hne : ds ≠ []) :
    parseLoop (ds.length + 1) ds 0 = .error .missingUnit ∨
    parseLoop (ds.length + 1) ds 0 = .error .invalidDuration := by
  obtain ⟨c, t, rfl⟩ : ∃ c t, ds = c :: t := by
    cases ds with
    | nil => exact absurd rfl hne
    | cons c t => exact ⟨c, t, rfl⟩
  have hc : isNumberChar c = true := isNumberChar_of_isDigit c (hd c (List.mem_cons_self _ _))
  rw [parseLoop]
  simp only [List.cons_ne_nil, if_false]
  rcases leadingIntLoop_all_digits (c :: t) 0 hd with h | ⟨v, h⟩
  · right
    simp [parseComponent, hc, leadingInt, h]
  · left
    simp [parseComponent, hc, leadingInt, h, parseFraction]

theorem leadingIntLoop_length (s : List Char) (x v : Nat) (r : List Char)
    (h : leadingIntLoop s x = some (v, r)) : r.length ≤ s.length := by
  induction s generalizing x with
  | nil =>
    simp only [leadingIntLoop, Option.some.injEq, Prod.mk.injEq] at h
    rw [← h.2]
  | cons c s ih =>
    simp only [leadingIntLoop] at h
    split_ifs at h with h1 h2 h3
    · simp only [Option.some.injEq, Prod.mk.injEq] at h
      rw [← h.2]
    · have := ih _ h
      simp only [List.length_cons]
      omega

theorem leadingFractionLoop_length (s : List Char) (x : Nat) (scale : ℚ) (o : Bool) :
    (leadingFractionLoop s x scale o).2.2.length ≤ s.length := by
  induction s generalizing x scale o with
  | nil => simp [leadingFractionLoop]
  | cons c s ih =>
    simp only [leadingFractionLoop]
    split_ifs
    · simp
    · have := ih x scale o
      simp only [List.length_cons]; omega
    · have := ih x scale true
      simp only [List.length_cons]; omega
    · have := ih x scale true
      simp only [List.length_cons]; omega
    · have := ih (x * 10 + digitVal c) (roundFloat64 (scale * 10)) o
      simp only [List.length_cons]; omega

theorem parseFraction_length (s : List Char) : (parseFraction s).2.2.1.length ≤ s.length := by
  unfold parseFraction
  split
  · rename_i t
    have := leadingFractionLoop_length t 0 1 false
    simp only [leadingFraction, List.length_cons]
    exact Nat.le_succ_of_le this
  · simp

theorem accumulate_ne_fuel (v f : Nat) (scale : ℚ) (unit d : Nat) :
    accumulate v f scale unit d ≠ .error .outOfFuel := by
  simp only [accumulate]
  split_ifs <;> simp

theorem parseComponent_ne_fuel (s : List Char) (d : Nat) :
    parseComponent s d ≠ .error .outOfFuel := by
  unfold parseComponent
  split
  · simp
  · split_ifs
    · simp
    · split
      · simp
      · split
        simp only []
        split_ifs
        · simp
        · simp
        · split
          · simp
          · split
            · rename_i e he
              intro h
              simp only [Except.error.injEq] at h
              rw [h] at he
              exact accumulate_ne_fuel _ _ _ _ _ he
            · simp

theorem parseComponent_shorter (s s' : List Char) (d d' : Nat)
    (h : parseComponent s d = .ok (s', d')) : s'.length < s.length := by
  unfold parseComponent at h
  split at h
  · simp at h
  · split_ifs at h
    split at h
    · simp at h
    · rename_i v s1 hlead
      have h1 := leadingIntLoop_length _ 0 v s1 hlead
      split at h
      rename_i f scale s2 post hfrac
      have h2 := parseFraction_length s1
      rw [hfrac] at h2
      simp only [] at h2 h
      split_ifs at h with hpp hu
      split at h
      · simp at h
      · split at h
        · simp at h
        · simp only [Except.ok.injEq, Prod.mk.injEq] at h
          rw [← h.1]
          have h3 := congrArg List.length
            (List.takeWhile_append_dropWhile (fun c => !isNumberChar c) s2)
          simp only [List.length_append] at h3
          have h4 : (List.takeWhile (fun c => !isNumberChar c) s2).length ≠ 0 := fun h0 =>
            hu (List.length_eq_zero.mp h0)
          omega

theorem parseLoop_ne_fuel (fuel : Nat) (s : List Char) (d : Nat) (h : s.length < fuel) :
    parseLoop fuel s d ≠ .error .outOfFuel := by
  induction fuel generalizing s d with
  | zero => simp at h
  | succ n ih =>
    rw [parseLoop]
    split_ifs with hs
    · simp
    · split
      · rename_i e he
        intro h'
        simp only [Except.error.injEq] at h'
        rw [h'] at he
        exact parseComponent_ne_fuel s d he
      · rename_i s' d' hc
        have := parseComponent_shorter s s' d d' hc
        exact ih s' d' (by omega)

theorem ParseDuration_ne_fuel (s : List Char) : ParseDuration s ≠ .error .outOfFuel := by
  unfold ParseDuration
  split
  rename_i neg s1 _
  have hl := parseLoop_ne_fuel (s1.length + 1) s1 0 (Nat.lt_succ_self _)
  cases hpl : parseLoop (s1.length + 1) s1 0 with
  | error e =>
    have he : e ≠ .outOfFuel := by intro h; rw [h] at hpl; exact hl hpl
    simp only []
    split_ifs <;> simp [he]
  | ok d =>
    simp only []
    split_ifs <;> simp

end GoTime

namespace Compare

/-! ### The per-query comparison rule -/

/-- C1 (as stated, refuted): the column lists `[1, 2]` and `[2, 1]` are equal as
multisets, yet `queryResultsAreEqual` answers false for the two queries. -/
theorem queryResultsAreEqual_reordered_false :
    columnsAscending.Result = some ⟨[1, 2], ()⟩ ∧
    columnsDescending.Result = some ⟨[2, 1], ()⟩ ∧
    (([1, 2] : List Nat) : Multiset Nat) = (([2, 1] : List Nat) : Multiset Nat) ∧
    queryResultsAreEqual columnsAscending columnsDescending = some false := by
  refine ⟨rfl, rfl, ?_, ?_⟩
  · decide
  · decide

/-- C1 (amended): when both queries carry a structured column-set result,
`queryResultsAreEqual` is true exactly when the two results are deeply equal;
a true verdict forces the column lists to be the same sequence, hence the same
multiset, and column lists that differ as multisets give false. -/
theorem queryResultsAreEqual_sets {A : Type} [DecidableEq A] (q1 q2 : Query A) (r1 r2 : RowResult A)
    (h1 : q1.Result = some r1) (h2 : q2.Result = some r2) :
    (queryResultsAreEqual q1 q2 = some true ↔ r1 = r2) ∧
    (queryResultsAreEqual q1 q2 = some true → r1.Columns = r2.Columns) ∧
    (queryResultsAreEqual q1 q2 = some true →
      (r1.Columns : Multiset Nat) = (r2.Columns : Multiset Nat)) ∧
    ((r1.Columns : Multiset Nat) ≠ (r2.Columns : Multiset Nat) →
      queryResultsAreEqual q1 q2 = some false) := by
  have key : queryResultsAreEqual q1 q2 = some (decide (r1 = r2)) := by
    simp [queryResultsAreEqual, h1, h2]
  refine ⟨?_, ?_, ?_, ?_⟩
  · rw [key]; simp
  · rw [key]; intro h; simp at h; rw [h]
  · rw [key]; intro h; simp at h; rw [h]
  · intro hne
    rw [key]
    have : r1 ≠ r2 := by
      intro h; apply hne; rw [h]
    simp [this]

/-- Witness of C1 (amended) at two queries with the same column set `[1, 2]`. -/
theorem queryResultsAreEqual_sets_witness :
    queryResultsAreEqual columnsAscending columnsAscending = some true ↔
      (⟨[1, 2], ()⟩ : RowResult Unit) = ⟨[1, 2], ()⟩ :=
  (queryResultsAreEqual_sets columnsAscending columnsAscending ⟨[1, 2], ()⟩ ⟨[1, 2], ()⟩
    rfl rfl).1

/-- C2: when both queries carry a result and at least one of them carries only
a scalar count, `queryResultsAreEqual` returns whether the cardinalities match
(count value for a count, length of the column list for a column set). -/
theorem queryResultsAreEqual_cardinality {A : Type} [DecidableEq A] (q1 q2 : Query A) (c1 c2 : Int)
    (h1 : cardinality q1 = some c1) (h2 : cardinality q2 = some c2)
    (hc : countOnly q1 ∨ countOnly q2) :
    queryResultsAreEqual q1 q2 = some (decide (c1 = c2)) := by
  obtain ⟨res1, cnt1, t1⟩ := q1
  obtain ⟨res2, cnt2, t2⟩ := q2
  simp only [cardinality, countOnly] at h1 h2 hc
  cases res1 <;> cases res2 <;> cases cnt1 <;> cases cnt2 <;>
    simp_all [queryResultsAreEqual]

/-- Witness of C2: the count 5 against the columns 10, 11, 12, 13, 14 (either
way round) is equal. -/
theorem queryResultsAreEqual_cardinality_witness :
    queryResultsAreEqual countFive fiveColumns = some (decide ((5 : Int) = 5)) ∧
    queryResultsAreEqual countFive fiveColumns = some true :=
  ⟨queryResultsAreEqual_cardinality countFive fiveColumns 5 5 rfl rfl
      (Or.inl ⟨rfl, by decide⟩),
    by decide⟩

/-! ### The loop of `compareQueryBenchmarks` in closed form -/

/-- One iteration, in terms of the predicates of the specification: it panics
exactly where a nil `*Query` is dereferenced. -/
theorem loopBody_eq {A : Type} [DecidableEq A] (b1 b2 : QueryBenchmark A) (st : LoopState)
    (i : Int) :
    loopBody b1 (some b2) st i =
      if panicsAt b1 b2 i then none
      else some
        { time1 := if producedAt b1 i && producedAt b2 i
            then wrap64 (st.time1 + timeAt b1 i) else st.time1
          time2 := if producedAt b1 i && producedAt b2 i
            then wrap64 (st.time2 + timeAt b2 i) else st.time2
          numCorrect := st.numCorrect +
            (if producedAt b1 i && producedAt b2 i && equalAt b1 b2 i then 1 else 0)
          validQueries := st.validQueries - (if producedAt b1 i then 0 else 1) } := by
  obtain ⟨t1, t2, nc, vq⟩ := st
  unfold loopBody panicsAt nilAt producedAt equalAt timeAt lacksResult
  cases h1 : b1.Queries i with
  | none => simp
  | some p1 =>
    cases p1 with
    | none => simp
    | some q1 =>
      obtain ⟨r1, c1, d1⟩ := q1
      cases h2 : b2.Queries i with
      | none => cases r1 <;> cases c1 <;> simp [h2]
      | some p2 =>
        cases p2 with
        | none => cases r1 <;> cases c1 <;> simp [h2]
        | some q2 =>
          obtain ⟨r2, c2, d2⟩ := q2
          cases r1 <;> cases c1 <;> cases r2 <;> cases c2 <;>
            simp [h2, queryResultsAreEqual] <;> split <;> simp

/-- The loop over any list of positions started in a state whose times are
already wrapped. -/
theorem runLoop_eq {A : Type} [DecidableEq A] (b1 b2 : QueryBenchmark A) (l : List Int)
    (st : LoopState) (h1 : wrap64 st.time1 = st.time1) (h2 : wrap64 st.time2 = st.time2) :
    runLoop b1 (some b2) l st =
      if l.any (panicsAt b1 b2) then none
      else some
        { time1 := wrap64 (st.time1 +
            ((l.filter (fun i => producedAt b1 i && producedAt b2 i)).map (timeAt b1)).sum)
          time2 := wrap64 (st.time2 +
            ((l.filter (fun i => producedAt b1 i && producedAt b2 i)).map (timeAt b2)).sum)
          numCorrect := st.numCorrect +
            ((l.filter
              (fun i => producedAt b1 i && producedAt b2 i && equalAt b1 b2 i)).length : Int)
          validQueries := st.validQueries -
            ((l.filter (fun i => !producedAt b1 i)).length : Int) } := by
  induction l generalizing st with
  | nil =>
    obtain ⟨t1, t2, nc, vq⟩ := st
    simp only [] at h1 h2
    simp [runLoop, h1, h2]
  | cons i is ih =>
    obtain ⟨t1, t2, nc, vq⟩ := st
    simp only [] at h1 h2
    rw [runLoop, loopBody_eq]
    cases hp : panicsAt b1 b2 i with
    | true => simp [hp]
    | false =>
      simp only [Bool.false_eq_true, if_false, List.any_cons, hp, Bool.false_or]
      rw [ih]
      · cases hany : is.any (panicsAt b1 b2) with
        | true => simp
        | false =>
          simp only [Bool.false_eq_true, if_false]
          cases hp1 : producedAt b1 i <;> cases hp2 : producedAt b2 i <;>
            cases he : equalAt b1 b2 i <;>
            simp [List.filter_cons, hp1, hp2, he, wrap64_add_left, add_assoc] <;> omega
      · simp only []
        split
        · exact wrap64_idem _
        · exact h1
      · simp only []
        split
        · exact wrap64_idem _
        · exact h2

theorem positions_length (n : Int) (h : 0 ≤ n) : ((positions n).length : Int) = n := by
  unfold positions
  rw [List.length_map, List.length_range]
  exact Int.toNat_of_nonneg h

/-- The value `compareQueryBenchmarks` returns on two benchmarks, and where it
panics instead. -/
theorem compareQueryBenchmarks_eq {A : Type} [DecidableEq A] (b1 b2 : QueryBenchmark A) :
    compareQueryBenchmarks (some b1) (some b2) =
      if (positions b1.NumQueries).any (panicsAt b1 b2) then none
      else some
        { Size := b1.NumQueries -
            (((positions b1.NumQueries).filter (fun i => !producedAt b1 i)).length : Int)
          PTime := wrap64 (specFirstTime b1 b2)
          CTime := wrap64 (specSecondTime b1 b2)
          Accuracy := ⟨(specNumCorrect b1 b2 : Int), b1.NumQueries -
            (((positions b1.NumQueries).filter (fun i => !producedAt b1 i)).length : Int)⟩
          TimeDelta := ⟨wrap64 (specSecondTime b1 b2 - specFirstTime b1 b2),
            wrap64 (specFirstTime b1 b2)⟩ } := by
  unfold compareQueryBenchmarks
  simp only []
  rw [runLoop_eq b1 b2 _ _ (show wrap64 0 = 0 by decide) (show wrap64 0 = 0 by decide)]
  cases hany : (positions b1.NumQueries).any (panicsAt b1 b2) with
  | true => simp
  | false =>
    simp [specFirstTime, specSecondTime, specNumCorrect, bothProduced, wrap64_sub_wrap]

/-- The function returns when no iteration dereferences a nil `*Query`. -/
theorem compareQueryBenchmarks_returns {A : Type} [DecidableEq A] (b1 b2 : QueryBenchmark A)
    (h : ∀ i ∈ positions b1.NumQueries, panicsAt b1 b2 i = false) :
    ∃ bench, compareQueryBenchmarks (some b1) (some b2) = some bench := by
  have hany : (positions b1.NumQueries).any (panicsAt b1 b2) = false := by
    rw [List.any_eq_false]
    intro i hi
    rw [h i hi]
    decide
  rw [compareQueryBenchmarks_eq, hany]
  exact ⟨_, rfl⟩

/-- Whatever the function returns is the closed form. -/
theorem compareQueryBenchmarks_some {A : Type} [DecidableEq A] (b1 b2 : QueryBenchmark A)
    (bench : Benchmark) (h : compareQueryBenchmarks (some b1) (some b2) = some bench) :
    bench =
      { Size := b1.NumQueries -
          (((positions b1.NumQueries).filter (fun i => !producedAt b1 i)).length : Int)
        PTime := wrap64 (specFirstTime b1 b2)
        CTime := wrap64 (specSecondTime b1 b2)
        Accuracy := ⟨(specNumCorrect b1 b2 : Int), b1.NumQueries -
          (((positions b1.NumQueries).filter (fun i => !producedAt b1 i)).length : Int)⟩
        TimeDelta := ⟨wrap64 (specSecondTime b1 b2 - specFirstTime b1 b2),
          wrap64 (specFirstTime b1 b2)⟩ } := by
  rw [compareQueryBenchmarks_eq] at h
  split at h
  · exact absurd h (by simp)
  · exact (Option.some.inj h).symm

/-- For a non-negative `NumQueries` the decremented counter is the number of
positions where run 1 produced a result. -/
theorem validQueries_eq {A : Type} (b1 : QueryBenchmark A) (h : 0 ≤ b1.NumQueries) :
    b1.NumQueries -
      (((positions b1.NumQueries).filter (fun i => !producedAt b1 i)).length : Int) =
      (specValidQueries b1 : Int) := by
  have hl := positions_length b1.NumQueries h
  have hs := List.length_eq_length_filter_add (l := positions b1.NumQueries)
    (fun i => producedAt b1 i)
  unfold specValidQueries
  omega

theorem specNumCorrect_le {A : Type} [DecidableEq A] (b1 b2 : QueryBenchmark A) :
    specNumCorrect b1 b2 ≤ specValidQueries b1 := by
  unfold specNumCorrect specValidQueries
  apply List.Sublist.length_le
  apply List.monotone_filter_right
  intro i hi
  simp only [Bool.and_eq_true] at hi
  exact hi.1.1

/-- For a non-negative `NumQueries`, whatever `compareQueryBenchmarks` returns
has `Size = validQueries`, the number of positions of `[0, NumQueries)` where
the first run has a query with a result or a count, and the accuracy
`numCorrect / validQueries`. -/
theorem compareQueryBenchmarks_counts {A : Type} [DecidableEq A]
    (b1 b2 : QueryBenchmark A) (h : 0 ≤ b1.NumQueries) (bench : Benchmark)
    (hb : compareQueryBenchmarks (some b1) (some b2) = some bench) :
    bench.Size = (specValidQueries b1 : Int) ∧
    bench.Accuracy = ⟨(specNumCorrect b1 b2 : Int), (specValidQueries b1 : Int)⟩ := by
  rw [compareQueryBenchmarks_some b1 b2 bench hb]
  simp only [validQueries_eq b1 h, and_self]

/-! ### The aggregates of `compareQueryBenchmarks` -/

/-- C3 (the code at the failing input): for a first benchmark with
`NumQueries = -1` and no query, `compareQueryBenchmarks` returns `Size = -1`
and the accuracy `0 / -1`, while no position of the empty range `[0, -1)` has
a query, so `validQueries` and `numCorrect` of the claim are both 0. -/
theorem compareQueryBenchmarks_negative_size :
    compareQueryBenchmarks (some negativeRun) (some negativeRun) =
      some ⟨-1, 0, 0, ⟨0, -1⟩, ⟨0, 0⟩⟩ ∧
    specValidQueries negativeRun = 0 ∧ specNumCorrect negativeRun negativeRun = 0 := by
  refine ⟨by decide, by decide, by decide⟩

/-- C9: `compareQueryBenchmarks` returns whenever no nil `*Query` is
dereferenced, and whenever it returns with `validQueries > 0` the operands of
the returned accuracy satisfy `0 ≤ numCorrect ≤ validQueries`, so the accuracy
lies between 0 and 1. -/
theorem compareQueryBenchmarks_accuracy_bounds {A : Type} [DecidableEq A]
    (b1 b2 : QueryBenchmark A) :
    ((∀ i ∈ positions b1.NumQueries, panicsAt b1 b2 i = false) →
      ∃ bench, compareQueryBenchmarks (some b1) (some b2) = some bench) ∧
    (∀ bench, compareQueryBenchmarks (some b1) (some b2) = some bench →
      bench.Accuracy.den = bench.Size ∧
      (0 < bench.Size →
        0 ≤ bench.Accuracy.num ∧ bench.Accuracy.num ≤ bench.Accuracy.den ∧
        ∃ a : ℚ, bench.Accuracy.value = some a ∧ 0 ≤ a ∧ a ≤ 1)) := by
  refine ⟨compareQueryBenchmarks_returns b1 b2, ?_⟩
  intro bench hb
  rw [compareQueryBenchmarks_some b1 b2 bench hb]
  refine ⟨rfl, ?_⟩
  simp only []
  intro hpos
  have hn : 0 ≤ b1.NumQueries := by
    by_contra hneg
    have : (0 : Int) ≤ (((positions b1.NumQueries).filter
      (fun i => !producedAt b1 i)).length : Int) := Int.natCast_nonneg _
    omega
  rw [validQueries_eq b1 hn] at hpos ⊢
  have hle : (specNumCorrect b1 b2 : Int) ≤ (specValidQueries b1 : Int) :=
    Int.ofNat_le.mpr (specNumCorrect_le b1 b2)
  have h0 : (0 : Int) ≤ (specNumCorrect b1 b2 : Int) := Int.natCast_nonneg _
  refine ⟨h0, hle, (specNumCorrect b1 b2 : ℚ) / (specValidQueries b1 : ℚ), ?_, ?_, ?_⟩
  · have hne : (specValidQueries b1 : Int) ≠ 0 := by omega
    simp [FloatQuot.value, hne]
  · positivity
  · have hq : (0 : ℚ) < (specValidQueries b1 : ℚ) := by exact_mod_cast hpos
    rw [div_le_one hq]
    exact_mod_cast hle

/-- Witness of C9: the sample runs dereference no nil pointer, the function
returns `validQueries = 2 > 0` and the accuracy `1 / 2`. -/
theorem compareQueryBenchmarks_accuracy_bounds_witness :
    compareQueryBenchmarks (some sampleFirst) (some sampleSecond) =
      some ⟨2, 30, 40, ⟨1, 2⟩, ⟨10, 30⟩⟩ ∧
    (∃ bench, compareQueryBenchmarks (some sampleFirst) (some sampleSecond) = some bench) ∧
    (0 : Int) ≤ 1 ∧ (1 : Int) ≤ 2 ∧
    ∃ a : ℚ, (⟨1, 2⟩ : FloatQuot).value = some a ∧ 0 ≤ a ∧ a ≤ 1 := by
  have hval : compareQueryBenchmarks (some sampleFirst) (some sampleSecond) =
      some ⟨2, 30, 40, ⟨1, 2⟩, ⟨10, 30⟩⟩ := by decide
  have h := compareQueryBenchmarks_accuracy_bounds sampleFirst sampleSecond
  have hb := (h.2 _ hval).2 (by decide)
  exact ⟨hval, h.1 (by decide), hb.1, hb.2.1, hb.2.2⟩

/-- C10 (as stated, refuted): a benchmark whose key 0 holds a nil `*Query`
makes `compareQueryBenchmarks` panic, so nothing is returned. For two runs of
two queries each, of `2 ^ 62 + 5` and of `2 ^ 62 + 10` nanoseconds, the sums
are `2 ^ 63 + 10` and `2 ^ 63 + 20`: the second run is slower, yet the returned
delta is `10 / -9223372036854775798`, a negative number, not `10 / (2 ^ 63 +
10)`. For a first run of -10ns and a second run of 5ns the second sum is the
larger, yet the returned delta `15 / -10` is negative. -/
theorem compareQueryBenchmarks_delta_refuted :
    compareQueryBenchmarks (some nilRun) (some nilRun) = none ∧
    (specFirstTime overflowFirst overflowSecond = 2 ^ 63 + 10 ∧
      specSecondTime overflowFirst overflowSecond = 2 ^ 63 + 20 ∧
      compareQueryBenchmarks (some overflowFirst) (some overflowSecond) =
        some ⟨2, -9223372036854775798, -9223372036854775788, ⟨2, 2⟩,
          ⟨10, -9223372036854775798⟩⟩ ∧
      (⟨10, -9223372036854775798⟩ : FloatQuot).value = some (-5 / 4611686018427387899) ∧
      (⟨2 ^ 63 + 20 - (2 ^ 63 + 10), 2 ^ 63 + 10⟩ : FloatQuot).value =
        some (5 / 4611686018427387909)) ∧
    (specFirstTime negativeTimeFirst negativeTimeSecond = -10 ∧
      specSecondTime negativeTimeFirst negativeTimeSecond = 5 ∧
      compareQueryBenchmarks (some negativeTimeFirst) (some negativeTimeSecond) =
        some ⟨1, -10, 5, ⟨1, 1⟩, ⟨15, -10⟩⟩ ∧
      (⟨15, -10⟩ : FloatQuot).value = some (-3 / 2)) := by
  refine ⟨by decide, ⟨by decide, by decide, by decide, ?_, ?_⟩,
    ⟨by decide, by decide, by decide, ?_⟩⟩
  · norm_num [FloatQuot.value]
  · norm_num [FloatQuot.value]
  · norm_num [FloatQuot.value]

/-- C10 (amended): `compareQueryBenchmarks` returns whenever no nil `*Query` is
dereferenced, and whatever it returns has `TimeDelta = (secondTime -
firstTime) / firstTime` in 64-bit arithmetic, the two times being the wrapped
sums of the per-query durations of `b1` and of `b2` over the positions where
both runs have a result; when the exact sums and their difference fit in 64
bits these are the operands, and with a positive `firstTime` the delta is
positive exactly when the second run is slower. The instance labels of the two
runs do not enter the computation. -/
theorem compareQueryBenchmarks_timeDelta {A : Type} [DecidableEq A] :
    (∀ b1 b2 : QueryBenchmark A,
      ((∀ i ∈ positions b1.NumQueries, panicsAt b1 b2 i = false) →
        ∃ bench, compareQueryBenchmarks (some b1) (some b2) = some bench) ∧
      ∀ bench, compareQueryBenchmarks (some b1) (some b2) = some bench →
        bench.PTime = wrap64 (specFirstTime b1 b2) ∧
        bench.CTime = wrap64 (specSecondTime b1 b2) ∧
        bench.TimeDelta = ⟨wrap64 (bench.CTime - bench.PTime), bench.PTime⟩ ∧
        (inInt64 (specFirstTime b1 b2) → inInt64 (specSecondTime b1 b2) →
          inInt64 (specSecondTime b1 b2 - specFirstTime b1 b2) →
          bench.TimeDelta =
            ⟨specSecondTime b1 b2 - specFirstTime b1 b2, specFirstTime b1 b2⟩ ∧
          (0 < specFirstTime b1 b2 →
            ∃ v : ℚ, bench.TimeDelta.value = some v ∧
              (0 < v ↔ specFirstTime b1 b2 < specSecondTime b1 b2)))) ∧
    (∀ (s1 s2 : SoloBenchmark A) (label1 label2 : String),
      compareQueries { s1 with Instance := label1 } { s2 with Instance := label2 } =
        compareQueries s1 s2) := by
  refine ⟨?_, ?_⟩
  · intro b1 b2
    refine ⟨compareQueryBenchmarks_returns b1 b2, ?_⟩
    intro bench hb
    rw [compareQueryBenchmarks_some b1 b2 bench hb]
    refine ⟨rfl, rfl, ?_, ?_⟩
    · simp only [wrap64_sub_wrap]
    · intro h1 h2 h3
      simp only []
      rw [wrap64_of_range _ h1.1 h1.2, wrap64_of_range _ h3.1 h3.2]
      refine ⟨rfl, ?_⟩
      intro hpos
      refine ⟨((specSecondTime b1 b2 - specFirstTime b1 b2 : Int) : ℚ) /
        ((specFirstTime b1 b2 : Int) : ℚ), ?_, ?_⟩
      · have hne : specFirstTime b1 b2 ≠ 0 := by omega
        simp [FloatQuot.value, hne]
      · have hq : (0 : ℚ) < ((specFirstTime b1 b2 : Int) : ℚ) := by exact_mod_cast hpos
        rw [div_pos_iff_of_pos_right hq]
        constructor
        · intro h
          have : (0 : Int) < specSecondTime b1 b2 - specFirstTime b1 b2 := by exact_mod_cast h
          omega
        · intro h
          have : (0 : Int) < specSecondTime b1 b2 - specFirstTime b1 b2 := by omega
          exact_mod_cast this
  · intro s1 s2 label1 label2
    rfl

/-- Witness of C10 (amended): on the sample runs the two positions where both
runs have a result carry 10 + 20 against 15 + 25, so the delta is
`(40 - 30) / 30`, positive for the slower second run. -/
theorem compareQueryBenchmarks_timeDelta_witness :
    specFirstTime sampleFirst sampleSecond = 30 ∧
    specSecondTime sampleFirst sampleSecond = 40 ∧
    (∃ bench, compareQueryBenchmarks (some sampleFirst) (some sampleSecond) = some bench) ∧
    (⟨2, 30, 40, ⟨1, 2⟩, ⟨10, 30⟩⟩ : Benchmark).TimeDelta = ⟨40 - 30, 30⟩ ∧
    ∃ v : ℚ, (⟨2, 30, 40, ⟨1, 2⟩, ⟨10, 30⟩⟩ : Benchmark).TimeDelta.value = some v ∧
      (0 < v ↔ (30 : Int) < 40) := by
  have hval : compareQueryBenchmarks (some sampleFirst) (some sampleSecond) =
      some ⟨2, 30, 40, ⟨1, 2⟩, ⟨10, 30⟩⟩ := by decide
  have hf : specFirstTime sampleFirst sampleSecond = 30 := by decide
  have hs : specSecondTime sampleFirst sampleSecond = 40 := by decide
  have h := (compareQueryBenchmarks_timeDelta (A := Unit)).1 sampleFirst sampleSecond
  have hd := (h.2 _ hval).2.2.2 (by rw [hf]; unfold inInt64; decide)
    (by rw [hs]; unfold inInt64; decide) (by rw [hf, hs]; unfold inInt64; decide)
  rw [hf, hs] at hd
  exact ⟨hf, hs, h.1 (by decide), hd.1, hd.2 (by decide)⟩

/-! ### `compareIngest` -/

/-- C4 (the code at the failing input): for total durations 1s (first file) and
1.25s (second file) `compareIngest` divides `first - second` by `first`, so it
reports -0.25 where (second - first) / first is 0.25. -/
theorem compareIngest_one_second_delta :
    (compareIngest ingestOneSecond ingestFiveQuarters).TimeDelta =
      ⟨-250000000, 1000000000⟩ ∧
    (compareIngest ingestOneSecond ingestFiveQuarters).TimeDelta.value = some (-(1 / 4)) ∧
    (compareIngest ingestOneSecond ingestFiveQuarters).TimeDelta.value ≠
      some (((1250000000 : ℚ) - 1000000000) / 1000000000) := by
  have h : (compareIngest ingestOneSecond ingestFiveQuarters).TimeDelta =
      ⟨-250000000, 1000000000⟩ := by decide
  refine ⟨h, ?_, ?_⟩
  · rw [h]; norm_num [FloatQuot.value]
  · rw [h]; norm_num [FloatQuot.value]

/-! ### `ExecuteCompare` -/

/-- A `List.mapM` in `Option` succeeds exactly when every element does, with
the results in order. -/
theorem mapM_option_eq_some {α β : Type} (f : α → Option β) (l : List α) (bs : List β) :
    l.mapM f = some bs ↔ List.Forall₂ (fun a b => f a = some b) l bs := by
  induction l generalizing bs with
  | nil =>
    rw [List.mapM_nil]
    constructor
    · intro h
      cases Option.some.inj h
      exact List.Forall₂.nil
    · intro h
      cases h
      rfl
  | cons a as ih =>
    rw [List.mapM_cons]
    cases hf : f a with
    | none =>
      constructor
      · intro h
        exact absurd h (by simp)
      · intro h
        cases h with
        | cons hab _ => rw [hf] at hab; exact absurd hab (by simp)
    | some b =>
      cases hm : as.mapM f with
      | none =>
        constructor
        · intro h
          exact absurd h (by simp)
        · intro h
          cases h with
          | cons _ hrest => rw [(ih _).mpr hrest] at hm; exact absurd hm (by simp)
      | some bs' =>
        constructor
        · intro h
          have hbs : b :: bs' = bs := by simpa using h
          subst hbs
          exact List.Forall₂.cons hf ((ih _).mp hm)
        · intro h
          cases h with
          | cons hab hrest =>
            rw [hf] at hab
            cases Option.some.inj hab
            rw [(ih _).mpr hrest] at hm
            cases Option.some.inj hm
            rfl

/-- What `compareQueries` hands to its printer: one `Benchmark` of
`compareQueryBenchmarks` for every index below the smaller `NumBenchmarks`, in
order, each from the two pointers at that index. -/
theorem compareQueries_some {A : Type} [DecidableEq A] (bench1 bench2 : SoloBenchmark A)
    (benchmarks : List Benchmark) :
    compareQueries bench1 bench2 = some benchmarks ↔
      ∃ n1 n2, bench1.NumBenchmarks = some n1 ∧ bench2.NumBenchmarks = some n2 ∧
        List.Forall₂
          (fun i b => ∃ qb1 qb2, bench1.Benchmarks[i.toNat]? = some qb1 ∧
            bench2.Benchmarks[i.toNat]? = some qb2 ∧ compareQueryBenchmarks qb1 qb2 = some b)
          (positions (if n1 ≤ n2 then n1 else n2)) benchmarks := by
  unfold compareQueries
  cases hn1 : bench1.NumBenchmarks with
  | none => simp
  | some n1 =>
    cases hn2 : bench2.NumBenchmarks with
    | none => simp
    | some n2 =>
      simp only [mapM_option_eq_some, Option.some.injEq, exists_and_left, exists_eq_left']
      apply Iff.of_eq
      congr 1
      funext i b
      cases h1 : bench1.Benchmarks[i.toNat]? with
      | none => simp
      | some qb1 =>
        cases h2 : bench2.Benchmarks[i.toNat]? with
        | none => simp
        | some qb2 => simp

/-- C11: for two successfully read artifacts whose recorded kinds differ,
`ExecuteCompare` returns the error naming the two kinds and calls neither
comparison. When the kinds are equal and are `cmdIngest`, it calls
`compareIngest` alone, which hands the `Benchmark` built from the two recorded
times to `printIngestResults`, and returns that printer's error, wrapped, or
nil. When the kinds are equal and are not `cmdIngest`, it calls
`compareQueries` alone: that either panics before printing, or hands to
`printQueryResults` one `Benchmark` of `compareQueryBenchmarks` per index
below the smaller `NumBenchmarks`, and `ExecuteCompare` returns that printer's
error, wrapped, or nil. -/
theorem ExecuteCompare_kinds {A : Type} [DecidableEq A] (env : CompareEnv A)
    (file1 file2 : String) (bench1 bench2 : SoloBenchmark A)
    (h1 : env.readResultFile file1 "" = .ok bench1)
    (h2 : env.readResultFile file2 "" = .ok bench2) :
    (bench1.Type_ ≠ bench2.Type_ →
      ExecuteCompare env file1 file2 =
        ⟨[], .returned (some ("cannot compare results of type " ++ bench1.Type_ ++ " and " ++
          bench2.Type_))⟩) ∧
    (bench1.Type_ = bench2.Type_ → bench1.Type_ = env.cmdIngest →
      ExecuteCompare env file1 file2 =
        ⟨[.compareIngest
            { Size := 0, CTime := bench1.Time, PTime := bench2.Time, Accuracy := ⟨0, 1⟩,
              TimeDelta := ⟨wrap64 (bench1.Time - bench2.Time), bench1.Time⟩ }],
          .returned ((env.printIngestResults (compareIngest bench1 bench2)).map
            (fun e => "error comparing ingest: " ++ ("error printing ingest results: " ++ e)))⟩) ∧
    (bench1.Type_ = bench2.Type_ → bench1.Type_ ≠ env.cmdIngest →
      (compareQueries bench1 bench2 = none →
        ExecuteCompare env file1 file2 = ⟨[.compareQueries none], .panicked⟩) ∧
      (∀ benchmarks, compareQueries bench1 bench2 = some benchmarks →
        ExecuteCompare env file1 file2 =
          ⟨[.compareQueries (some benchmarks)],
            .returned ((env.printQueryResults benchmarks).map
              (fun e =>
                "error comparing queries: " ++ ("error printing query results: " ++ e)))⟩ ∧
        ∃ n1 n2, bench1.NumBenchmarks = some n1 ∧ bench2.NumBenchmarks = some n2 ∧
          List.Forall₂
            (fun i b => ∃ qb1 qb2, bench1.Benchmarks[i.toNat]? = some qb1 ∧
              bench2.Benchmarks[i.toNat]? = some qb2 ∧
              compareQueryBenchmarks qb1 qb2 = some b)
            (positions (if n1 ≤ n2 then n1 else n2)) benchmarks)) := by
  refine ⟨?_, ?_, ?_⟩
  · intro hne
    unfold ExecuteCompare
    simp only [h1, h2]
    rw [if_pos hne]
  · intro heq hi
    have hnn : ¬ (bench1.Type_ ≠ bench2.Type_) := fun h => h heq
    unfold ExecuteCompare
    simp only [h1, h2]
    rw [if_neg hnn, if_pos hi]
    unfold compareIngestError
    cases env.printIngestResults (compareIngest bench1 bench2) <;> rfl
  · intro heq hq
    have hnn : ¬ (bench1.Type_ ≠ bench2.Type_) := fun h => h heq
    refine ⟨?_, ?_⟩
    · intro hc
      unfold ExecuteCompare
      simp only [h1, h2]
      rw [if_neg hnn, if_neg hq]
      unfold compareQueriesError
      simp only [hc]
    · intro benchmarks hc
      refine ⟨?_, (compareQueries_some bench1 bench2 benchmarks).mp hc⟩
      unfold ExecuteCompare
      simp only [h1, h2]
      rw [if_neg hnn, if_neg hq]
      unfold compareQueriesError
      simp only [hc]
      cases env.printQueryResults benchmarks <;> rfl

/-- Witness of C11: a query artifact against an ingest artifact is refused
without any comparison; two ingest artifacts go to the ingest comparison,
which prints the two recorded times and their delta; two query artifacts go to
the query comparison, which prints the one compared benchmark; a failing
printer is reported under both wrappers; a nil benchmark pointer panics. -/
theorem ExecuteCompare_kinds_witness :
    ExecuteCompare (compareEnv false) "q1" "i1" =
      ⟨[], .returned (some "cannot compare results of type query and ingest")⟩ ∧
    ExecuteCompare (compareEnv false) "i1" "i2" =
      ⟨[.compareIngest ⟨0, 1250000000, 1000000000, ⟨0, 1⟩, ⟨-250000000, 1000000000⟩⟩],
        .returned none⟩ ∧
    ExecuteCompare (compareEnv true) "i1" "i2" =
      ⟨[.compareIngest ⟨0, 1250000000, 1000000000, ⟨0, 1⟩, ⟨-250000000, 1000000000⟩⟩],
        .returned (some "error comparing ingest: error printing ingest results: broken pipe")⟩ ∧
    ExecuteCompare (compareEnv false) "q1" "q2" =
      ⟨[.compareQueries (some [⟨2, 30, 40, ⟨1, 2⟩, ⟨10, 30⟩⟩])], .returned none⟩ ∧
    ExecuteCompare (compareEnv true) "q1" "q2" =
      ⟨[.compareQueries (some [⟨2, 30, 40, ⟨1, 2⟩, ⟨10, 30⟩⟩])],
        .returned (some "error comparing queries: error printing query results: broken pipe")⟩ ∧
    ExecuteCompare (compareEnv false) "q1" "q3" = ⟨[.compareQueries none], .panicked⟩ := by
  have hd := (ExecuteCompare_kinds (compareEnv false) "q1" "i1" queryArtifact ingestOneSecond
    rfl rfl).1 (by decide)
  have hi := (ExecuteCompare_kinds (compareEnv false) "i1" "i2" ingestOneSecond
    ingestFiveQuarters rfl rfl).2.1 rfl rfl
  have hq := ((ExecuteCompare_kinds (compareEnv false) "q1" "q2" queryArtifact
    queryArtifactSecond rfl rfl).2.2 rfl (by decide)).2 [⟨2, 30, 40, ⟨1, 2⟩, ⟨10, 30⟩⟩]
    (by decide)
  have hp := ((ExecuteCompare_kinds (compareEnv false) "q1" "q3" queryArtifact
    queryArtifactNil rfl rfl).2.2 rfl (by decide)).1 (by decide)
  exact ⟨hd, hi, by decide, hq.1, by decide, hp⟩

end Compare

namespace SoloQuery

open GoTime

/-! ### `TimeDuration` in JSON -/

theorem dropWhile_quote_cons (x : Char) (t : List Char) (hx : x ≠ quoteChar) :
    (x :: t).dropWhile (fun c => c = quoteChar) = x :: t := by
  simp [List.dropWhile, hx]

theorem trimQuotes_quoted (x l : Char) (t : List Char) (hx : x ≠ quoteChar)
    (hl : l ≠ quoteChar) :
    trimQuotes (quoteChar :: ((x :: (t ++ [l])) ++ [quoteChar])) = x :: (t ++ [l]) := by
  unfold trimQuotes
  have h1 : (quoteChar :: ((x :: (t ++ [l])) ++ [quoteChar])).dropWhile
      (fun c => c = quoteChar) = x :: (t ++ [l]) ++ [quoteChar] := by
    rw [List.dropWhile_cons]
    simp only [decide_True, if_true, List.cons_append]
    exact dropWhile_quote_cons x _ hx
  rw [h1]
  have h2 : (x :: (t ++ [l]) ++ [quoteChar]).reverse = quoteChar :: l :: (x :: t).reverse := by
    simp
  rw [h2, List.dropWhile_cons]
  simp only [decide_True, if_true]
  rw [dropWhile_quote_cons l _ hl]
  simp

theorem trimQuotes_bare (s : List Char) (hx : ∀ c, s.head? = some c → c ≠ quoteChar)
    (hl : ∀ c, s.getLast? = some c → c ≠ quoteChar) : trimQuotes s = s := by
  unfold trimQuotes
  have h1 : s.dropWhile (fun c => c = quoteChar) = s := by
    cases s with
    | nil => rfl
    | cons x t => exact dropWhile_quote_cons x t (hx x rfl)
  rw [h1]
  have h2 : s.reverse.dropWhile (fun c => c = quoteChar) = s.reverse := by
    cases hr : s.reverse with
    | nil => rfl
    | cons x t =>
      apply dropWhile_quote_cons x t
      apply hl x
      rw [List.getLast?_eq_head?_reverse, hr]
      rfl
  rw [h2, List.reverse_reverse]

theorem format_shape (d : Int) (h1 : -2 ^ 63 ≤ d) (h2 : d < 2 ^ 63) :
    ∃ x t, format d = x :: (t ++ ['s']) ∧ x ≠ quoteChar := by
  obtain ⟨_, c, t, hf, hc⟩ := formatAbs_spec d.natAbs (by omega)
  rw [format_eq d h1 h2]
  by_cases hd : d < 0
  · rw [if_pos hd, hf]
    exact ⟨'-', c :: t, by simp, by decide⟩
  · rw [if_neg hd, hf]
    refine ⟨c, t, rfl, ?_⟩
    intro h; rw [h] at hc; exact absurd hc (by decide)

theorem unmarshal_marshal (recv : TimeDuration) (d : Int) (h1 : -2 ^ 63 ≤ d) (h2 : d < 2 ^ 63) :
    TimeDuration.UnmarshalJSON recv (TimeDuration.MarshalJSON ⟨d⟩) = (⟨d⟩, none) := by
  obtain ⟨x, t, hf, hx⟩ := format_shape d h1 h2
  unfold TimeDuration.UnmarshalJSON TimeDuration.MarshalJSON
  simp only []
  rw [hf, trimQuotes_quoted x 's' t hx (by decide), ← hf, parseDuration_format d h1 h2]

theorem isDigit_ne_quote (c : Char) (h : isDigit c = true) : c ≠ quoteChar := by
  intro hq; rw [hq] at h; exact absurd h (by decide)

theorem parseDuration_digits (ds : List Char) (hd : ∀ c ∈ ds, isDigit c = true)
    (hne : ds ≠ []) (h0 : ds ≠ ['0']) :
    (ParseDuration ds = .error .missingUnit ∨ ParseDuration ds = .error .invalidDuration) ∧
    (ParseDuration ('-' :: ds) = .error .missingUnit ∨
      ParseDuration ('-' :: ds) = .error .invalidDuration) := by
  obtain ⟨c, t, rfl⟩ : ∃ c t, ds = c :: t := by
    cases ds with
    | nil => exact absurd rfl hne
    | cons c t => exact ⟨c, t, rfl⟩
  have hc : isDigit c = true := hd c (List.mem_cons_self _ _)
  have hc1 : c ≠ '-' := by intro h; rw [h] at hc; exact absurd hc (by decide)
  have hc2 : c ≠ '+' := by intro h; rw [h] at hc; exact absurd hc (by decide)
  have hloop := parseLoop_digits (c :: t) hd hne
  simp only [List.length_cons] at hloop
  constructor
  · unfold ParseDuration
    simp only [hc1, hc2, decide_False, Bool.or_self, Bool.false_eq_true, if_false, h0,
      List.cons_ne_nil]
    rcases hloop with h | h <;> simp [h]
  · unfold ParseDuration
    simp only [decide_True, Bool.true_or, if_true, h0, if_false, List.cons_ne_nil]
    rcases hloop with h | h <;> simp [h]

theorem unmarshal_jsonInteger (recv : TimeDuration) (n : Int) (hn : n ≠ 0) :
    TimeDuration.UnmarshalJSON recv (jsonInteger n) = (⟨0⟩, some .missingUnit) ∨
    TimeDuration.UnmarshalJSON recv (jsonInteger n) = (⟨0⟩, some .invalidDuration) := by
  obtain ⟨ds, h1, h2, h3, h4⟩ := fmtInt_spec [] n.natAbs
  rw [List.append_nil] at h1
  have hval : decValue ds 0 = n.natAbs := by rw [h3]; simp
  have h0 : ds ≠ ['0'] := by
    intro h
    rw [h] at hval
    have : decValue ['0'] 0 = 0 := by decide
    omega
  obtain ⟨hpos, hneg⟩ := parseDuration_digits ds h2 h4 h0
  have hlast : ∀ c, ds.getLast? = some c → c ≠ quoteChar := fun c hc =>
    isDigit_ne_quote c (h2 c (List.mem_of_getLast?_eq_some hc))
  have hhead : ∀ c, ds.head? = some c → c ≠ quoteChar := fun c hc =>
    isDigit_ne_quote c (h2 c (List.mem_of_mem_head? hc))
  unfold TimeDuration.UnmarshalJSON jsonInteger
  rw [h1]
  by_cases hlt : n < 0
  · rw [if_pos hlt]
    have htrim : trimQuotes ('-' :: ds) = '-' :: ds := by
      apply trimQuotes_bare
      · intro c hc
        simp only [List.head?_cons, Option.some.injEq] at hc
        rw [← hc]; decide
      · intro c hc
        cases ds with
        | nil => exact absurd rfl h4
        | cons x t =>
          rw [List.getLast?_cons_cons] at hc
          exact hlast c hc
    rw [htrim]
    rcases hneg with h | h <;> simp [h]
  · rw [if_neg hlt, trimQuotes_bare ds hhead hlast]
    rcases hpos with h | h <;> simp [h]

end SoloQuery

namespace SoloQuery

open GoTime

/-! ### The persisted form of a duration -/

/-- C5: for every duration `d` in the signed 64-bit range, `UnmarshalJSON`
applied to the bytes `MarshalJSON` produces for `d` succeeds and leaves a
`TimeDuration` whose `Duration` is `d`, whatever the receiver held before. -/
theorem TimeDuration_roundtrip (recv : TimeDuration) (d : Int) (h : inInt64 d) :
    TimeDuration.UnmarshalJSON recv (TimeDuration.MarshalJSON ⟨d⟩) = (⟨d⟩, none) ∧
    (TimeDuration.UnmarshalJSON recv (TimeDuration.MarshalJSON ⟨d⟩)).1.Duration = d := by
  have hrt := unmarshal_marshal recv d h.1 h.2
  exact ⟨hrt, by rw [hrt]⟩

/-- Witness of C5: 1.5s, the smallest and the largest duration come back from
their persisted form. -/
theorem TimeDuration_roundtrip_witness :
    TimeDuration.MarshalJSON ⟨1500000000⟩ = [quoteChar, '1', '.', '5', 's', quoteChar] ∧
    TimeDuration.UnmarshalJSON ⟨7⟩ (TimeDuration.MarshalJSON ⟨1500000000⟩) =
      (⟨1500000000⟩, none) ∧
    TimeDuration.UnmarshalJSON ⟨7⟩ (TimeDuration.MarshalJSON ⟨-2 ^ 63⟩) = (⟨-2 ^ 63⟩, none) ∧
    TimeDuration.UnmarshalJSON ⟨7⟩ (TimeDuration.MarshalJSON ⟨2 ^ 63 - 1⟩) =
      (⟨2 ^ 63 - 1⟩, none) :=
  ⟨by decide,
    (TimeDuration_roundtrip ⟨7⟩ 1500000000 ⟨by decide, by decide⟩).1,
    (TimeDuration_roundtrip ⟨7⟩ (-2 ^ 63) ⟨by decide, by decide⟩).1,
    (TimeDuration_roundtrip ⟨7⟩ (2 ^ 63 - 1) ⟨by decide, by decide⟩).1⟩

/-- C8 (as stated, refuted): the JSON number 1000 (integer nanoseconds) does
not parse to the duration of 1000 nanoseconds; `UnmarshalJSON` returns the
error of a missing unit and leaves the duration 0. -/
theorem UnmarshalJSON_integer_rejected :
    jsonInteger 1000 = ['1', '0', '0', '0'] ∧
    TimeDuration.UnmarshalJSON ⟨7⟩ (jsonInteger 1000) =
      (⟨0⟩, some DurationError.missingUnit) := by
  refine ⟨by decide, by decide⟩

/-- C8 (amended): `UnmarshalJSON` accepts the string form only. Every duration
string in the emitted form parses without error to the duration it denotes;
the JSON number `n` is rejected with an error (missing unit, or invalid
duration when it is too large) for every integer `n` other than 0, and 0
parses to the zero duration; `MarshalJSON` always emits the duration string
between double quotes. -/
theorem UnmarshalJSON_forms :
    (∀ (recv : TimeDuration) (d : Int), inInt64 d →
      TimeDuration.UnmarshalJSON recv (TimeDuration.MarshalJSON ⟨d⟩) = (⟨d⟩, none)) ∧
    (∀ (recv : TimeDuration) (n : Int), n ≠ 0 →
      TimeDuration.UnmarshalJSON recv (jsonInteger n) = (⟨0⟩, some DurationError.missingUnit) ∨
      TimeDuration.UnmarshalJSON recv (jsonInteger n) =
        (⟨0⟩, some DurationError.invalidDuration)) ∧
    (∀ recv : TimeDuration, TimeDuration.UnmarshalJSON recv (jsonInteger 0) = (⟨0⟩, none)) ∧
    (∀ d : TimeDuration, TimeDuration.MarshalJSON d = quoteChar :: (format d.Duration ++ [quoteChar])) ∧
    (∀ d : TimeDuration, inInt64 d.Duration →
      ∃ x t, format d.Duration = x :: (t ++ ['s']) ∧ x ≠ quoteChar) := by
  refine ⟨?_, ?_, ?_, ?_, ?_⟩
  · intro recv d h
    exact unmarshal_marshal recv d h.1 h.2
  · intro recv n hn
    exact unmarshal_jsonInteger recv n hn
  · intro recv
    have h : ParseDuration (trimQuotes (jsonInteger 0)) = .ok 0 := rfl
    simp only [TimeDuration.UnmarshalJSON, h]
  · intro d
    rfl
  · intro d h
    exact format_shape d.Duration h.1 h.2

/-- Witness of C8 (amended): 1.2ms is emitted between quotes and parses back;
the bare number 1200000 is rejected. -/
theorem UnmarshalJSON_forms_witness :
    TimeDuration.MarshalJSON ⟨1200000⟩ =
      [quoteChar, '1', '.', '2', 'm', 's', quoteChar] ∧
    TimeDuration.UnmarshalJSON ⟨7⟩ (TimeDuration.MarshalJSON ⟨1200000⟩) = (⟨1200000⟩, none) ∧
    (TimeDuration.UnmarshalJSON ⟨7⟩ (jsonInteger 1200000) =
        (⟨0⟩, some DurationError.missingUnit) ∨
      TimeDuration.UnmarshalJSON ⟨7⟩ (jsonInteger 1200000) =
        (⟨0⟩, some DurationError.invalidDuration)) :=
  ⟨by decide,
    UnmarshalJSON_forms.1 ⟨7⟩ 1200000 ⟨by decide, by decide⟩,
    UnmarshalJSON_forms.2.1 ⟨7⟩ 1200000 (by decide)⟩

/-! ### The two-phase protocol -/

/-- C6 (the code at the failing input): with no artifact present and every
external call succeeding, `ExecuteSoloQueries` records and persists the
workload and then, in the same invocation, enters the second-run phase: it
opens the artifact it has just written and returns the instance-mismatch
error. -/
theorem ExecuteSoloQueries_first_run_falls_through :
    (sampleEnv true).checkBenchIsFirst = .ok (true, "abc") ∧
    emptyWorld.artifacts "data/abcquery" = none ∧
    (executeFirstSoloQueries (sampleEnv true) ⟨"candidate", ()⟩ "abcquery" "data" [2] 1 2
      emptyWorld).2 = .returned none ∧
    (ExecuteSoloQueries (sampleEnv true) emptyWorld).1.trace =
      [Event.ranFirst 2, Event.wroteArtifact "data/abcquery",
        Event.openedArtifact "data/abcquery"] ∧
    (ExecuteSoloQueries (sampleEnv true) emptyWorld).2 =
      .returned
        (some ("could not execute second solo queries: running dx solo query on instance " ++
          "candidate, but previous result file was already on candidate")) := by
  refine ⟨rfl, rfl, ?_, ?_, ?_⟩
  · decide
  · decide
  · decide

/-- C7: for a loaded artifact whose recorded command is not the query command,
or whose recorded instance is the instance of the current run (the other
instance being a different one), `executeSecondSoloQueries` returns an error
having only opened the artifact: nothing is replayed and the artifact stays.
Whenever a benchmark is replayed, the recorded command is the query command
and the recorded instance is the other instance, not the current one. -/
theorem executeSecondSoloQueries_rejects {R C : Type} (env : Env R C) (holder : Holder C)
    (filename dataDir : String) (w : World R) (solobench : SoloBenchmark R)
    (hload : w.artifacts (joinPath dataDir filename) = some solobench)
    (hother : (env.otherInstance holder.instance_).1 ≠ holder.instance_) :
    ((solobench.Command ≠ env.cmdQuery ∨ solobench.Instance = holder.instance_) →
      (∃ e, (executeSecondSoloQueries env holder filename dataDir w).2 = .returned (some e)) ∧
      (executeSecondSoloQueries env holder filename dataDir w).1.artifacts = w.artifacts ∧
      (executeSecondSoloQueries env holder filename dataDir w).1.trace =
        w.trace ++ [Event.openedArtifact (joinPath dataDir filename)]) ∧
    (∀ n, Event.ranSecond n ∈ (executeSecondSoloQueries env holder filename dataDir w).1.trace →
      Event.ranSecond n ∉ w.trace →
      solobench.Command = env.cmdQuery ∧
      solobench.Instance = (env.otherInstance holder.instance_).1 ∧
      solobench.Instance ≠ holder.instance_) := by
  have hreject : (solobench.Command ≠ env.cmdQuery ∨
      solobench.Instance ≠ (env.otherInstance holder.instance_).1) →
      (∃ e, (executeSecondSoloQueries env holder filename dataDir w).2 = .returned (some e)) ∧
      (executeSecondSoloQueries env holder filename dataDir w).1.artifacts = w.artifacts ∧
      (executeSecondSoloQueries env holder filename dataDir w).1.trace =
        w.trace ++ [Event.openedArtifact (joinPath dataDir filename)] := by
    intro h
    unfold executeSecondSoloQueries readQueryResultFile
    simp only [hload]
    cases hr : env.readAll (joinPath dataDir filename) with
    | some e => exact ⟨⟨_, rfl⟩, rfl, rfl⟩
    | none =>
      dsimp only
      by_cases hc : solobench.Command ≠ env.cmdQuery
      · rw [if_pos hc]
        exact ⟨⟨_, rfl⟩, rfl, rfl⟩
      · have hi : solobench.Instance ≠ (env.otherInstance holder.instance_).1 := by
          rcases h with h | h
          · exact absurd h hc
          · exact h
        rw [if_neg hc, if_pos hi]
        exact ⟨⟨_, rfl⟩, rfl, rfl⟩
  refine ⟨?_, ?_⟩
  · intro h
    apply hreject
    rcases h with h | h
    · exact Or.inl h
    · right
      rw [h]
      exact fun heq => hother heq.symm
  · intro n hmem hnew
    by_cases hc : solobench.Command = env.cmdQuery
    · by_cases hi : solobench.Instance = (env.otherInstance holder.instance_).1
      · exact ⟨hc, hi, by rw [hi]; exact hother⟩
      · exfalso
        rw [(hreject (Or.inr hi)).2.2] at hmem
        simp at hmem
        exact hnew hmem
    · exfalso
      rw [(hreject (Or.inl hc)).2.2] at hmem
      simp at hmem
      exact hnew hmem

/-- Witness of C7: an artifact recorded against `candidate` is rejected by a
run against `candidate`; one recorded against `primary` is replayed and
removed. -/
theorem executeSecondSoloQueries_rejects_witness :
    ((∃ e, (executeSecondSoloQueries (sampleEnv false) ⟨"candidate", ()⟩ "abcquery" "data"
        (recordedWorld "query" "candidate")).2 = .returned (some e)) ∧
      (executeSecondSoloQueries (sampleEnv false) ⟨"candidate", ()⟩ "abcquery" "data"
        (recordedWorld "query" "candidate")).1.trace =
        [Event.openedArtifact "data/abcquery"]) ∧
    (executeSecondSoloQueries (sampleEnv false) ⟨"candidate", ()⟩ "abcquery" "data"
        (recordedWorld "query" "primary")).1.trace =
      [Event.openedArtifact "data/abcquery", Event.ranSecond 2, Event.printedResults 1,
        Event.removedArtifact "data/abcquery"] := by
  have h := (executeSecondSoloQueries_rejects (sampleEnv false) ⟨"candidate", ()⟩ "abcquery"
    "data" (recordedWorld "query" "candidate")
    ⟨"query", "candidate", 1, [⟨2, 30, []⟩], 1⟩ rfl (by decide)).1 (Or.inr rfl)
  exact ⟨⟨h.1, h.2.2⟩, by decide⟩

end SoloQuery

namespace Imagine

/-! ### Text encoding of `valueOrder` -/

theorem valueOrder_names :
    valueOrder.String 0 = "linear".toList ∧ valueOrder.String 1 = "stride".toList ∧
    valueOrder.String 2 = "permute".toList ∧ valueOrder.String 3 = "zipf".toList := by
  decide

theorem valueOrderNameToValueMap_eq : _valueOrderNameToValueMap =
    [("linear".toList, 0), ("stride".toList, 1), ("permute".toList, 2), ("zipf".toList, 3)] := by
  decide

/-- A listed value is decoded from its name. -/
theorem valueOrderString_String (v : Int) (hv : v ∈ _valueOrderValues) :
    valueOrderString (valueOrder.String v) = .ok v := by
  simp only [_valueOrderValues, List.mem_cons, List.mem_singleton, List.not_mem_nil,
    or_false] at hv
  rcases hv with h | h | h | h <;> subst h <;> rfl

/-- A name that decodes is the name of the listed value it decodes to. -/
theorem valueOrderString_ok (s : List Char) (v : Int) (h : valueOrderString s = .ok v) :
    v ∈ _valueOrderValues ∧ valueOrder.String v = s := by
  unfold valueOrderString at h
  rw [valueOrderNameToValueMap_eq] at h
  simp only [List.lookup] at h
  split at h
  · rename_i val hval
    simp only [Except.ok.injEq] at h
    subst h
    split at hval
    · rename_i heq
      simp only [Option.some.injEq] at hval
      subst hval
      have : s = "linear".toList := by simpa using heq
      subst this
      exact ⟨by decide, by decide⟩
    · split at hval
      · rename_i heq
        simp only [Option.some.injEq] at hval
        subst hval
        have : s = "stride".toList := by simpa using heq
        subst this
        exact ⟨by decide, by decide⟩
      · split at hval
        · rename_i heq
          simp only [Option.some.injEq] at hval
          subst hval
          have : s = "permute".toList := by simpa using heq
          subst this
          exact ⟨by decide, by decide⟩
        · split at hval
          · rename_i heq
            simp only [Option.some.injEq] at hval
            subst hval
            have : s = "zipf".toList := by simpa using heq
            subst this
            exact ⟨by decide, by decide⟩
          · simp at hval
  · simp at h

/-- C12: for every value `v` listed in the enum (0 to 3, named linear, stride,
permute, zipf) `valueOrderString (v.String ())` returns `v` without error and
`UnmarshalText` applied to the bytes of `v.MarshalText ()` sets the receiver to
`v`; conversely `valueOrderString s` returns `v` without error only if `v` is
listed and `v.String () = s`, and it fails for every other string. -/
theorem valueOrder_text_roundtrip :
    (valueOrder.String 0 = "linear".toList ∧ valueOrder.String 1 = "stride".toList ∧
      valueOrder.String 2 = "permute".toList ∧ valueOrder.String 3 = "zipf".toList) ∧
    (∀ v ∈ _valueOrderValues, ∀ recv : Int,
      valueOrderString (valueOrder.String v) = .ok v ∧
      (valueOrder.MarshalText v).2 = none ∧
      valueOrder.UnmarshalText recv (valueOrder.MarshalText v).1 = (v, none)) ∧
    (∀ (s : List Char) (v : Int), valueOrderString s = .ok v →
      v ∈ _valueOrderValues ∧ valueOrder.String v = s) ∧
    (∀ s : List Char, (∀ v ∈ _valueOrderValues, valueOrder.String v ≠ s) →
      valueOrderString s = .error (s ++ " does not belong to valueOrder values".toList)) := by
  refine ⟨valueOrder_names, ?_, valueOrderString_ok, ?_⟩
  · intro v hv recv
    have h := valueOrderString_String v hv
    refine ⟨h, rfl, ?_⟩
    simp only [valueOrder.UnmarshalText, valueOrder.MarshalText, h]
  · intro s hs
    cases hr : valueOrderString s with
    | ok v =>
      obtain ⟨hv, hname⟩ := valueOrderString_ok s v hr
      exact absurd hname (hs v hv)
    | error e =>
      unfold valueOrderString at hr
      split at hr
      · simp at hr
      · simp only [Except.error.injEq] at hr
        rw [hr]

/-- Witness of C12: `permute` encodes the value 2 and decodes to it, whatever
the receiver held; `random` is no name of the enum and fails. -/
theorem valueOrder_text_roundtrip_witness :
    (2 : Int) ∈ _valueOrderValues ∧
    (valueOrder.MarshalText 2).1 = "permute".toList ∧
    valueOrder.UnmarshalText 0 (valueOrder.MarshalText 2).1 = (2, none) ∧
    (valueOrder.String 3 = "zipf".toList ∧ (3 : Int) ∈ _valueOrderValues) ∧
    valueOrderString "random".toList =
      .error ("random".toList ++ " does not belong to valueOrder values".toList) :=
  ⟨by decide, by decide,
    (valueOrder_text_roundtrip.2.1 2 (by decide) 0).2.2,
    (valueOrder_text_roundtrip.2.2.1 "zipf".toList 3 rfl).symm,
    valueOrder_text_roundtrip.2.2.2 "random".toList (by decide)⟩

end Imagine

end Dx
